import Mathlib

/-
Verification of the asset-store layer of dagster
(`python_modules/dagster/dagster/core/storage/asset_store.py`).

The embedding models:
  * POSIX path manipulation (`os.path.join`, `os.path.dirname`,
    `os.path.normpath`, `os.path.abspath`) faithfully on character lists;
  * the filesystem as a map from path strings to entries (file or directory),
    with `mkdir_p` (dagster's wrapper over `os.makedirs`) and pickling
    modeled as storing the value itself (the serializer is an opaque
    round-tripping strategy per the design);
  * the four backends: `InMemoryAssetStore`,
    `PickledObjectFilesystemAssetStore` (run-scoped),
    `CustomPathPickledObjectFilesystemAssetStore` (explicit path),
    `VersionedPickledObjectFilesystemAssetStore` (version-scoped);
  * `AssetStoreContext` with its two construction paths.

Python exceptions are collapsed into an error enumeration: `notFound`
covers `FileNotFoundError` and the dict `KeyError` (the spec's
`NotFoundError` taxon), `checkError` covers dagster `check.CheckError`
(the spec's `ConfigError`/`ValidationError` taxa), `typeError` covers the
`TypeError` raised by `os.path.join` on a `None` component, `isADir` and
`notADir` cover `IsADirectoryError`/`NotADirectoryError`, and `ioError`
the remaining `OSError`s raised by `mkdir_p`.
-/

deriving instance DecidableEq for Except

namespace Dagster

/-- Error taxonomy of the embedding (see the header comment). -/
inductive StoreErr : Type where
  | notFound : StoreErr
  | isADir : StoreErr
  | notADir : StoreErr
  | ioError : StoreErr
  | checkError : StoreErr
  | typeError : StoreErr
deriving DecidableEq, Repr

/-- A filesystem entry: a regular file holding a pickled value, or a directory. -/
inductive FSEntry (α : Type) : Type where
  | file : α → FSEntry α
  | dir : FSEntry α
deriving DecidableEq, Repr

/-- Filesystem state: a partial map from absolute-or-relative path strings
(exactly the strings the Python code passes to `open`/`os.mkdir`) to entries. -/
structure FS (α : Type) : Type where
  entries : String → Option (FSEntry α)

/-- The empty filesystem. -/
def fsEmpty {α : Type} : FS α := ⟨fun _ => none⟩

/-- Whether an optional entry is a regular file. -/
def isFileEntry {α : Type} : Option (FSEntry α) → Bool
  | some (.file _) => true
  | _ => false

/-- String from a character list (the kernel-friendly constructor). -/
def strOf (l : List Char) : String := ⟨l⟩

/-- String concatenation via character lists. -/
def scat (a b : String) : String := ⟨a.data ++ b.data⟩

/-- One step of CPython `posixpath.join`: the body of its loop over the
remaining components, `sep = '/'`. -/
def joinOne (path b : String) : String :=
  if b.data.head? = some '/' then b
  else if path.data = [] ∨ path.data.getLast? = some '/' then scat path b
  else scat path (scat (strOf ['/']) b)

/-- CPython `posixpath.join a ps` (variadic arguments as a list). -/
def osPathJoin (a : String) (ps : List String) : String :=
  ps.foldl joinOne a

/-- The prefix of a character list up to and including its last `'/'`
(empty if there is no `'/'`): the `head` of CPython `posixpath.split`. -/
def headToLastSep : List Char → List Char
  | [] => []
  | c :: cs =>
    if '/' ∈ cs then c :: headToLastSep cs
    else if c = '/' then ['/'] else []

/-- Remove trailing `'/'` characters (Python `str.rstrip('/')`). -/
def rstripSlash (l : List Char) : List Char :=
  (l.reverse.dropWhile (fun c => c = '/')).reverse

/-- CPython `posixpath.dirname`: the prefix up to the last separator,
with trailing separators stripped unless the prefix is all separators. -/
def osPathDirname (p : String) : String :=
  if headToLastSep p.data ≠ [] ∧ (headToLastSep p.data).any (fun c => c ≠ '/')
  then ⟨rstripSlash (headToLastSep p.data)⟩ else ⟨headToLastSep p.data⟩

/-- Fuel-based iteration of `osPathDirname` from a path up to its fixpoint. -/
def dirChainFuel : Nat → String → List String
  | 0, p => [p]
  | n + 1, p =>
    if osPathDirname p = p then [p] else p :: dirChainFuel n (osPathDirname p)

/-- The chain `p, dirname p, dirname (dirname p), …` ending at the first
fixpoint of `osPathDirname` (`""` or an all-slash string).  `p.data.length`
is always enough fuel because `osPathDirname` strictly shortens non-fixpoints. -/
def dirChain (p : String) : List String := dirChainFuel p.data.length p

/-- Dagster `mkdir_p fs p`: `os.makedirs(p)` swallowing `EEXIST`-on-a-directory.
Net effect: every member of the dirname chain of `p` that is absent becomes a
directory; an existing regular file anywhere on the chain, or an empty path,
is an error (`FileExistsError`/`NotADirectoryError`/`FileNotFoundError`). -/
def mkdir_p {α : Type} (fs : FS α) (p : String) : Except StoreErr (FS α) :=
  if p = "" then .error .ioError
  else if (dirChain p).any (fun q => isFileEntry (fs.entries q)) then .error .ioError
  else .ok ⟨fun q =>
    if (fs.entries q).isNone && decide (q ≠ "") && decide (q ∈ dirChain p)
    then some .dir else fs.entries q⟩

/-- The write side of the filesystem backends' `set_asset` bodies:
`mkdir_p(os.path.dirname(filepath))` followed by
`open(filepath, "wb")` + `pickle.dump(obj, …)` (a full overwrite). -/
def fsWriteFile {α : Type} (fs : FS α) (p : String) (v : α) :
    Except StoreErr (FS α) :=
  match mkdir_p fs (osPathDirname p) with
  | .error e => .error e
  | .ok fs₁ =>
    if p.data = [] ∨ p.data.getLast? = some '/' then .error .isADir
    else match fs₁.entries p with
      | some .dir => .error .isADir
      | _ => .ok ⟨fun q => if q = p then some (.file v) else fs₁.entries q⟩

/-- The read side of `get_asset` bodies: `open(filepath, "rb")` +
`pickle.load`.  A missing path is `FileNotFoundError` unless a proper
ancestor is a regular file, which is `NotADirectoryError`. -/
def fsReadFile {α : Type} (fs : FS α) (p : String) : Except StoreErr α :=
  match fs.entries p with
  | some (.file v) => .ok v
  | some .dir => .error .isADir
  | none =>
    if (dirChain (osPathDirname p)).any (fun q => isFileEntry (fs.entries q))
    then .error .notADir else .error .notFound

/-- Python `str.split('/')` on a character list. -/
def splitSlash : List Char → List (List Char)
  | [] => [[]]
  | c :: cs =>
    if c = '/' then [] :: splitSlash cs
    else
      match splitSlash cs with
      | g :: gs => (c :: g) :: gs
      | [] => [[c]]

/-- Join components with `'/'` (Python `'/'.join`). -/
def joinComps : List (List Char) → List Char
  | [] => []
  | [g] => g
  | g :: gs => g ++ '/' :: joinComps gs

/-- CPython `posixpath.normpath`. -/
def osPathNormpath (p : String) : String :=
  if p.data = [] then "." else
  let islashes : Nat :=
    if p.data.head? = some '/' then
      if p.data.take 2 = ['/', '/'] ∧ p.data.take 3 ≠ ['/', '/', '/'] then 2 else 1
    else 0
  let comps := splitSlash p.data
  let newComps := comps.foldl (fun acc comp =>
    if comp = [] ∨ comp = ['.'] then acc
    else if comp ≠ ['.', '.'] ∨ (islashes = 0 ∧ acc = [])
            ∨ (acc ≠ [] ∧ acc.getLast? = some ['.', '.']) then acc ++ [comp]
    else acc.dropLast) []
  let res := List.replicate islashes '/' ++ joinComps newComps
  if res = [] then "." else ⟨res⟩

/-- CPython `posixpath.abspath`, with the process working directory passed
explicitly (the embedding's stand-in for `os.getcwd()`). -/
def osPathAbspath (cwd : String) (p : String) : String :=
  if p.data.head? = some '/' then osPathNormpath p
  else osPathNormpath (osPathJoin cwd [p])

/-- A Python value stored in the `asset_metadata` dict (`Any`): either a
string or something that fails `check.str_param`. -/
inductive PyVal : Type where
  | str : String → PyVal
  | nonstr : PyVal
deriving DecidableEq, Repr

/-- Opaque handle standing for `dagster.core.definitions.solid.SolidDefinition`
(only its identity matters to this layer). -/
structure SolidDefinition : Type where
  name : String
deriving DecidableEq, Repr

/-- The `AssetStoreContext` namedtuple.  `check.str_param`/`check.inst_param`
validation in `__new__` is subsumed by the field types; `check.opt_dict_param`
normalizes an absent dict to `{}`, subsumed by the list representation. -/
structure AssetStoreContext : Type where
  step_key : String
  output_name : String
  asset_metadata : List (String × PyVal)
  pipeline_name : String
  solid_def : SolidDefinition
  source_run_id : Option String
  version : Option String
deriving DecidableEq, Repr

/-- Python `dict.get` on the association-list model of `asset_metadata`. -/
def dictGet : List (String × PyVal) → String → Option PyVal
  | [], _ => none
  | (k, v) :: rest, key => if k = key then some v else dictGet rest key

/-- Dagster `check.str_param` applied to an optional `Any` value: a
`CheckError` unless the value is present and a string. -/
def checkStrParam : Option PyVal → Except StoreErr String
  | some (.str s) => .ok s
  | _ => .error .checkError

/-- Dagster `check.str_param` applied to an optional string field
(`context.version`): a `CheckError` when the field is `None`. -/
def checkStrSome : Option String → Except StoreErr String
  | some s => .ok s
  | none => .error .checkError

/-- The `AssetMaterialization` event built by the explicit-path backend:
`asset_key` is the `AssetKey` path list, `metadata_entries` the list of
`EventMetadataEntry.fspath` path texts. -/
structure AssetMaterialization : Type where
  asset_key : List String
  metadata_entries : List String
deriving DecidableEq, Repr

/-- `AssetStoreContext.get_run_scoped_output_identifier`:
`[self.source_run_id, self.step_key, self.output_name]` (the run id may be
`None`, hence the `Option`; the other two are strings). -/
def AssetStoreContext.get_run_scoped_output_identifier
    (ctx : AssetStoreContext) : List (Option String) :=
  [ctx.source_run_id, some ctx.step_key, some ctx.output_name]

/-- The `InMemoryAssetStore`: its `values` dict, keyed by
`tuple(context.get_run_scoped_output_identifier())`. -/
structure InMemoryAssetStore (α : Type) : Type where
  values : List (Option String) → Option α

/-- An `InMemoryAssetStore` fresh from `__init__` (`self.values = {}`). -/
def memEmpty {α : Type} : InMemoryAssetStore α := ⟨fun _ => none⟩

/-- `InMemoryAssetStore.set_asset`: dict assignment at the identifier tuple;
the Python method body returns `None` (no materialization). -/
def InMemoryAssetStore.set_asset {α : Type} (st : InMemoryAssetStore α)
    (ctx : AssetStoreContext) (v : α) :
    InMemoryAssetStore α × Option AssetMaterialization :=
  (⟨fun k => if k = ctx.get_run_scoped_output_identifier then some v
             else st.values k⟩, none)

/-- `InMemoryAssetStore.get_asset`: dict lookup; a missing key raises
`KeyError` (the spec's `NotFoundError` taxon). -/
def InMemoryAssetStore.get_asset {α : Type} (st : InMemoryAssetStore α)
    (ctx : AssetStoreContext) : Except StoreErr α :=
  match st.values ctx.get_run_scoped_output_identifier with
  | some v => .ok v
  | none => .error .notFound

/-- The run-scoped filesystem backend.  `base_dir` is
`check.opt_str_param(base_dir, "base_dir")`, hence optional. -/
structure PickledObjectFilesystemAssetStore : Type where
  base_dir : Option String

/-- `PickledObjectFilesystemAssetStore._get_path`:
`os.path.join(self.base_dir, *context.get_run_scoped_output_identifier())`.
`os.path.join` raises `TypeError` on a `None` component (absent `base_dir`
or absent `source_run_id`). -/
def PickledObjectFilesystemAssetStore.getPath
    (st : PickledObjectFilesystemAssetStore) (ctx : AssetStoreContext) :
    Except StoreErr String :=
  match st.base_dir, ctx.source_run_id with
  | some b, some r => .ok (osPathJoin b [r, ctx.step_key, ctx.output_name])
  | _, _ => .error .typeError

/-- `PickledObjectFilesystemAssetStore.set_asset`: resolve the path, ensure
parent directories, pickle-dump; returns `None` (no materialization). -/
def PickledObjectFilesystemAssetStore.set_asset {α : Type}
    (st : PickledObjectFilesystemAssetStore) (fs : FS α)
    (ctx : AssetStoreContext) (v : α) :
    Except StoreErr (FS α × Option AssetMaterialization) :=
  match st.getPath ctx with
  | .error e => .error e
  | .ok p =>
    match fsWriteFile fs p v with
    | .error e => .error e
    | .ok fs' => .ok (fs', none)

/-- `PickledObjectFilesystemAssetStore.get_asset`: resolve the path and
unpickle the file. -/
def PickledObjectFilesystemAssetStore.get_asset {α : Type}
    (st : PickledObjectFilesystemAssetStore) (fs : FS α)
    (ctx : AssetStoreContext) : Except StoreErr α :=
  match st.getPath ctx with
  | .error e => .error e
  | .ok p => fsReadFile fs p

/-- The explicit-path filesystem backend. -/
structure CustomPathPickledObjectFilesystemAssetStore : Type where
  base_dir : Option String

/-- `CustomPathPickledObjectFilesystemAssetStore._get_path`:
`os.path.join(self.base_dir, path)`; `TypeError` when `base_dir` is `None`. -/
def CustomPathPickledObjectFilesystemAssetStore.getPath
    (st : CustomPathPickledObjectFilesystemAssetStore) (path : String) :
    Except StoreErr String :=
  match st.base_dir with
  | some b => .ok (osPathJoin b [path])
  | none => .error .typeError

/-- `CustomPathPickledObjectFilesystemAssetStore.set_asset`:
`check.str_param(asset_metadata.get("path"))`, resolve, ensure directories,
pickle-dump, then return an `AssetMaterialization` whose key is
`[pipeline_name, step_key, output_name]` and whose metadata entry is
`os.path.abspath(filepath)`.  `cwd` stands for `os.getcwd()`. -/
def CustomPathPickledObjectFilesystemAssetStore.set_asset {α : Type}
    (st : CustomPathPickledObjectFilesystemAssetStore) (cwd : String)
    (fs : FS α) (ctx : AssetStoreContext) (v : α) :
    Except StoreErr (FS α × Option AssetMaterialization) :=
  match checkStrParam (dictGet ctx.asset_metadata "path") with
  | .error e => .error e
  | .ok path =>
    match st.getPath path with
    | .error e => .error e
    | .ok fp =>
      match fsWriteFile fs fp v with
      | .error e => .error e
      | .ok fs' =>
        .ok (fs', some ⟨[ctx.pipeline_name, ctx.step_key, ctx.output_name],
                        [osPathAbspath cwd fp]⟩)

/-- `CustomPathPickledObjectFilesystemAssetStore.get_asset`. -/
def CustomPathPickledObjectFilesystemAssetStore.get_asset {α : Type}
    (st : CustomPathPickledObjectFilesystemAssetStore) (fs : FS α)
    (ctx : AssetStoreContext) : Except StoreErr α :=
  match checkStrParam (dictGet ctx.asset_metadata "path") with
  | .error e => .error e
  | .ok path =>
    match st.getPath path with
    | .error e => .error e
    | .ok fp => fsReadFile fs fp

/-- The version-scoped filesystem backend. -/
structure VersionedPickledObjectFilesystemAssetStore : Type where
  base_dir : Option String

/-- `VersionedPickledObjectFilesystemAssetStore._get_path`:
`check.str_param` on `step_key`, `output_name` (strings, always pass) and
`version` (`CheckError` when `None`), then
`os.path.join(self.base_dir, step_key, output_name, version)`
(`TypeError` when `base_dir` is `None`). -/
def VersionedPickledObjectFilesystemAssetStore.getPath
    (st : VersionedPickledObjectFilesystemAssetStore)
    (ctx : AssetStoreContext) : Except StoreErr String :=
  match checkStrSome ctx.version with
  | .error e => .error e
  | .ok ver =>
    match st.base_dir with
    | some b => .ok (osPathJoin b [ctx.step_key, ctx.output_name, ver])
    | none => .error .typeError

/-- `VersionedPickledObjectFilesystemAssetStore.set_asset`: resolve the
versioned path, ensure directories, pickle-dump; returns `None`. -/
def VersionedPickledObjectFilesystemAssetStore.set_asset {α : Type}
    (st : VersionedPickledObjectFilesystemAssetStore) (fs : FS α)
    (ctx : AssetStoreContext) (v : α) :
    Except StoreErr (FS α × Option AssetMaterialization) :=
  match st.getPath ctx with
  | .error e => .error e
  | .ok p =>
    match fsWriteFile fs p v with
    | .error e => .error e
    | .ok fs' => .ok (fs', none)

/-- `VersionedPickledObjectFilesystemAssetStore.get_asset`. -/
def VersionedPickledObjectFilesystemAssetStore.get_asset {α : Type}
    (st : VersionedPickledObjectFilesystemAssetStore) (fs : FS α)
    (ctx : AssetStoreContext) : Except StoreErr α :=
  match st.getPath ctx with
  | .error e => .error e
  | .ok p => fsReadFile fs p

/-- `VersionedPickledObjectFilesystemAssetStore.has_asset`:
`os.path.exists(filepath) and not os.path.isdir(filepath)`, i.e. a regular
file sits at the versioned path. -/
def VersionedPickledObjectFilesystemAssetStore.has_asset {α : Type}
    (st : VersionedPickledObjectFilesystemAssetStore) (fs : FS α)
    (ctx : AssetStoreContext) : Except StoreErr Bool :=
  match st.getPath ctx with
  | .error e => .error e
  | .ok p => .ok (isFileEntry (fs.entries p))

/-- The engine-side `OutputContext` interface as accessed by
`AssetStoreContext.from_output_context` (exactly the attributes it reads). -/
structure OutputContext : Type where
  step_key : String
  name : String
  metadata : List (String × PyVal)
  pipeline_name : String
  solid_def : SolidDefinition
  run_id : Option String
  version : Option String
deriving DecidableEq, Repr

/-- The engine-side load (input) context interface as accessed by
`AssetStoreContext.from_load_context`: the upstream output's context plus
the consuming solid's definition. -/
structure LoadContext : Type where
  upstream_output : OutputContext
  solid_def : SolidDefinition
deriving DecidableEq, Repr

/-- `AssetStoreContext.from_output_context` (the producer-side path). -/
def AssetStoreContext.from_output_context (oc : OutputContext) :
    AssetStoreContext :=
  { step_key := oc.step_key
    output_name := oc.name
    asset_metadata := oc.metadata
    pipeline_name := oc.pipeline_name
    solid_def := oc.solid_def
    source_run_id := oc.run_id
    version := oc.version }

/-- `AssetStoreContext.from_load_context` (the consumer-side path): all
fields are drawn from `load_context.upstream_output` except `solid_def`,
which is the consuming step's `load_context.solid_def`. -/
def AssetStoreContext.from_load_context (lc : LoadContext) :
    AssetStoreContext :=
  { step_key := lc.upstream_output.step_key
    output_name := lc.upstream_output.name
    asset_metadata := lc.upstream_output.metadata
    pipeline_name := lc.upstream_output.pipeline_name
    solid_def := lc.solid_def
    source_run_id := lc.upstream_output.run_id
    version := lc.upstream_output.version }

/-- A string usable as a single path segment: nonempty and free of `'/'`.
The spec's invariant "one path segment per field" holds exactly for such
field values; the code itself never checks it. -/
def SegOK (s : String) : Prop := s.data ≠ [] ∧ '/' ∉ s.data

instance (s : String) : Decidable (SegOK s) :=
  inferInstanceAs (Decidable (_ ∧ _))

/-- Segment-safety of an optional string field: present and segment-safe. -/
def OptSegOK : Option String → Prop
  | some s => SegOK s
  | none => False

instance (o : Option String) : Decidable (OptSegOK o) := by
  cases o <;> simp only [OptSegOK] <;> infer_instance

/-- Segment-safety of the fields the version-scoped backend keys on. -/
def VCtxOK (c : AssetStoreContext) : Prop :=
  SegOK c.step_key ∧ SegOK c.output_name ∧ OptSegOK c.version

instance (c : AssetStoreContext) : Decidable (VCtxOK c) :=
  inferInstanceAs (Decidable (_ ∧ _ ∧ _))

/-- Segment-safety of the fields the run-scoped backends key on. -/
def PCtxOK (c : AssetStoreContext) : Prop :=
  OptSegOK c.source_run_id ∧ SegOK c.step_key ∧ SegOK c.output_name

instance (c : AssetStoreContext) : Decidable (PCtxOK c) :=
  inferInstanceAs (Decidable (_ ∧ _ ∧ _))

/-- The base prefix contributed by `base_dir` to a joined path: `base_dir`
itself when empty or already slash-terminated, otherwise with `'/'` added. -/
def normBase (b : String) : List Char :=
  if b.data = [] ∨ b.data.getLast? = some '/' then b.data else b.data ++ ['/']

/-- Character data of `"/x" ++ "/y" ++ …` for the given segments. -/
def icTail : List String → List Char
  | [] => []
  | s :: rest => '/' :: (s.data ++ icTail rest)

/-- Character data of `"x/y/…"` for the given segments (the relative part
a join of segment-safe components appends after `normBase`). -/
def segsData : List String → List Char
  | [] => []
  | s :: rest => s.data ++ icTail rest

/-- The memoization cache key of the version-scoped backend:
the `(step_key, output_name, version)` triple. -/
def vKey (c : AssetStoreContext) : String × String × Option String :=
  (c.step_key, c.output_name, c.version)

/-- The run-scoped key triple `(source_run_id, step_key, output_name)`. -/
def runKey (c : AssetStoreContext) : Option String × String × String :=
  (c.source_run_id, c.step_key, c.output_name)

/-- Whether an `Except` result is a success. -/
def exOk {ε α : Type} : Except ε α → Bool
  | .ok _ => true
  | .error _ => false

/-- A sequence of raw file writes applied left to right, stopping at the
first error. -/
def fsRunWrites {α : Type} : List (String × α) → FS α → Except StoreErr (FS α)
  | [], fs => .ok fs
  | (p, v) :: ws, fs =>
    match fsWriteFile fs p v with
    | .error e => .error e
    | .ok fs' => fsRunWrites ws fs'

/-- A sequence of `set_asset` calls on the version-scoped backend. -/
def vRunWrites {α : Type} (st : VersionedPickledObjectFilesystemAssetStore) :
    List (AssetStoreContext × α) → FS α → Except StoreErr (FS α)
  | [], fs => .ok fs
  | (c, v) :: ws, fs =>
    match st.set_asset fs c v with
    | .error e => .error e
    | .ok (fs', _) => vRunWrites st ws fs'

/-- A sequence of `set_asset` calls on the run-scoped filesystem backend. -/
def pRunWrites {α : Type} (st : PickledObjectFilesystemAssetStore) :
    List (AssetStoreContext × α) → FS α → Except StoreErr (FS α)
  | [], fs => .ok fs
  | (c, v) :: ws, fs =>
    match st.set_asset fs c v with
    | .error e => .error e
    | .ok (fs', _) => pRunWrites st ws fs'

/-- A sequence of `set_asset` calls on the in-memory backend (total). -/
def memRunWrites {α : Type} :
    List (AssetStoreContext × α) → InMemoryAssetStore α → InMemoryAssetStore α
  | [], st => st
  | (c, v) :: ws, st => memRunWrites ws (st.set_asset c v).1

/-- The path a version-scoped write under base `b` resolves for a context
(total representation; meaningful when the version is present). -/
def vWritePath (b : String) (c : AssetStoreContext) : String :=
  osPathJoin b [c.step_key, c.output_name, c.version.getD ""]

/-- The path a run-scoped write under base `b` resolves for a context
(total representation; meaningful when the source run id is present). -/
def pWritePath (b : String) (c : AssetStoreContext) : String :=
  osPathJoin b [c.source_run_id.getD "", c.step_key, c.output_name]

/-- Strings with equal character data are equal. -/
theorem strDataInj {a b : String} (h : a.data = b.data) : a = b := by
  cases a; cases b; exact congrArg String.mk h

/-- A segment-safe string does not start with the path separator. -/
theorem sep_not_head {s : String} (hs : SegOK s) : s.data.head? ≠ some '/' := by
  intro h
  cases hd : s.data with
  | nil => rw [hd] at h; simp at h
  | cons c cs =>
    rw [hd] at h
    simp only [List.head?_cons, Option.some.injEq] at h
    exact hs.2 (by rw [hd, ← h]; exact List.mem_cons_self _ _)

/-- A segment-safe string does not end with the path separator. -/
theorem sep_not_last {s : String} (hs : SegOK s) : s.data.getLast? ≠ some '/' := by
  intro h
  exact hs.2 (List.mem_of_mem_getLast? (by simp [h]))

/-- First join step over a segment-safe component. -/
theorem joinOne_base (b s : String) (hs : SegOK s) :
    joinOne b s = ⟨normBase b ++ s.data⟩ := by
  unfold joinOne normBase scat strOf
  rw [if_neg (sep_not_head hs)]
  by_cases hb : b.data = [] ∨ b.data.getLast? = some '/'
  · rw [if_pos hb, if_pos hb]
  · rw [if_neg hb, if_neg hb]
    exact strDataInj (by simp)

/-- Join step onto an accumulated path not ending in the separator. -/
theorem joinOne_acc (acc : List Char) (t : String) (hne : acc ≠ [])
    (hlast : acc.getLast? ≠ some '/') (ht : SegOK t) :
    joinOne ⟨acc⟩ t = ⟨acc ++ '/' :: t.data⟩ := by
  unfold joinOne scat strOf
  rw [if_neg (sep_not_head ht), if_neg (by simpa using ⟨hne, hlast⟩)]
  exact strDataInj (by simp)

/-- Folding the join over segment-safe components appends `icTail`. -/
theorem foldl_joinOne (rest : List String) : ∀ acc : List Char, acc ≠ [] →
    acc.getLast? ≠ some '/' → (∀ t ∈ rest, SegOK t) →
    List.foldl joinOne ⟨acc⟩ rest = ⟨acc ++ icTail rest⟩ := by
  induction rest with
  | nil =>
    intro acc _ _ _
    exact strDataInj (by simp [icTail])
  | cons t rest ih =>
    intro acc h1 h2 h3
    have ht : SegOK t := h3 t (List.mem_cons_self _ _)
    rw [List.foldl_cons, joinOne_acc acc t h1 h2 ht]
    rw [ih (acc ++ '/' :: t.data) (by simp)
        (by have hsplit : acc ++ '/' :: t.data = (acc ++ ['/']) ++ t.data := by simp
            rw [hsplit, List.getLast?_append_of_ne_nil _ ht.1]
            exact sep_not_last ht)
        (fun u hu => h3 u (List.mem_cons_of_mem _ hu))]
    exact strDataInj (by simp [icTail])

/-- Normal form of `os.path.join` over segment-safe components:
the normalized base followed by the slash-joined segments. -/
theorem osPathJoin_nf (b s : String) (rest : List String) (hs : SegOK s)
    (hrest : ∀ t ∈ rest, SegOK t) :
    osPathJoin b (s :: rest) = ⟨normBase b ++ segsData (s :: rest)⟩ := by
  unfold osPathJoin
  rw [List.foldl_cons, joinOne_base b s hs]
  rw [foldl_joinOne rest (normBase b ++ s.data)
      (by simp [hs.1])
      (by rw [List.getLast?_append_of_ne_nil _ hs.1]; exact sep_not_last hs)
      hrest]
  exact strDataInj (by simp [segsData])

/-- A list containing no separator has an empty head-to-last-separator. -/
theorem headToLastSep_no_sep {l : List Char} (h : '/' ∉ l) :
    headToLastSep l = [] := by
  induction l with
  | nil => rfl
  | cons c cs ih =>
    unfold headToLastSep
    rw [if_neg (fun hm => h (List.mem_cons_of_mem _ hm)),
        if_neg (fun hc => h (List.mem_cons.mpr (Or.inl hc.symm)))]

/-- Head to the last separator of `pre ++ '/' :: suffix` with a
separator-free suffix is `pre ++ ['/']`. -/
theorem headToLastSep_append {suffix : List Char} (hs : '/' ∉ suffix) :
    ∀ pre : List Char, headToLastSep (pre ++ '/' :: suffix) = pre ++ ['/'] := by
  intro pre
  induction pre with
  | nil =>
    simp only [List.nil_append]
    unfold headToLastSep
    rw [if_neg hs]
    simp
  | cons c pre ih =>
    show headToLastSep (c :: (pre ++ '/' :: suffix)) = _
    unfold headToLastSep
    rw [if_pos (by exact List.mem_append_right _ (List.mem_cons_self _ _)), ih]
    rfl

/-- Appending a separator-free suffix does not change the head to the
last separator. -/
theorem headToLastSep_append_nosep {suffix : List Char} (hs : '/' ∉ suffix) :
    ∀ pre : List Char, headToLastSep (pre ++ suffix) = headToLastSep pre := by
  intro pre
  induction pre with
  | nil => simpa using headToLastSep_no_sep hs
  | cons c pre ih =>
    show headToLastSep (c :: (pre ++ suffix)) = headToLastSep (c :: pre)
    unfold headToLastSep
    by_cases hmem : '/' ∈ pre
    · rw [if_pos (List.mem_append_left _ hmem), if_pos hmem, ih]
    · have hnotall : '/' ∉ pre ++ suffix := by
        intro hx
        rcases List.mem_append.mp hx with h1 | h2
        · exact hmem h1
        · exact hs h2
      rw [if_neg hnotall, if_neg hmem]

/-- The head to the last separator is never longer than the input. -/
theorem headToLastSep_len (l : List Char) :
    (headToLastSep l).length ≤ l.length := by
  induction l with
  | nil => simp [headToLastSep]
  | cons c cs ih =>
    unfold headToLastSep
    by_cases hmem : '/' ∈ cs
    · rw [if_pos hmem]; simpa using ih
    · rw [if_neg hmem]
      by_cases hc : c = '/'
      · rw [if_pos hc]; simp
      · rw [if_neg hc]; simp

/-- The head to the last separator is a prefix of the input. -/
theorem headToLastSep_pre (l : List Char) : headToLastSep l <+: l := by
  induction l with
  | nil => simp [headToLastSep]
  | cons c cs ih =>
    unfold headToLastSep
    by_cases hmem : '/' ∈ cs
    · rw [if_pos hmem]; exact (List.prefix_cons_inj c).mpr ih
    · rw [if_neg hmem]
      by_cases hc : c = '/'
      · rw [if_pos hc, hc]
        exact ⟨cs, rfl⟩
      · rw [if_neg hc]; exact List.nil_prefix

/-- A list containing the separator has a nonempty head to the last
separator. -/
theorem headToLastSep_ne_nil {l : List Char} (h : '/' ∈ l) :
    headToLastSep l ≠ [] := by
  induction l with
  | nil => cases h
  | cons c cs ih =>
    unfold headToLastSep
    by_cases hmem : '/' ∈ cs
    · rw [if_pos hmem]; simp
    · have hc : c = '/' := by
        rcases List.mem_cons.mp h with h1 | h2
        · exact h1.symm
        · exact absurd h2 hmem
      rw [if_neg hmem, if_pos hc]; simp

/-- A nonempty head to the last separator ends with the separator. -/
theorem headToLastSep_last {l : List Char} (h : headToLastSep l ≠ []) :
    (headToLastSep l).getLast? = some '/' := by
  induction l with
  | nil => simp [headToLastSep] at h
  | cons c cs ih =>
    unfold headToLastSep at h ⊢
    by_cases hmem : '/' ∈ cs
    · rw [if_pos hmem] at h ⊢
      have hne := headToLastSep_ne_nil hmem
      rw [show c :: headToLastSep cs = [c] ++ headToLastSep cs from rfl,
          List.getLast?_append_of_ne_nil _ hne]
      exact ih hne
    · rw [if_neg hmem] at h ⊢
      by_cases hc : c = '/'
      · rw [if_pos hc]; rfl
      · rw [if_neg hc] at h; exact absurd rfl h

/-- Dropping a prefix cannot lengthen a list. -/
theorem dropWhile_len_le (p : Char → Bool) (l : List Char) :
    (l.dropWhile p).length ≤ l.length := by
  induction l with
  | nil => simp
  | cons a t ih =>
    rw [List.dropWhile_cons]
    split
    · exact Nat.le_succ_of_le ih
    · simp

/-- Stripping trailing separators cannot lengthen a list. -/
theorem rstripSlash_len_le (l : List Char) :
    (rstripSlash l).length ≤ l.length := by
  unfold rstripSlash
  rw [List.length_reverse]
  calc (l.reverse.dropWhile (fun c => c = '/')).length
      ≤ l.reverse.length := dropWhile_len_le _ _
    _ = l.length := List.length_reverse _

/-- Stripping a present trailing separator strictly shortens a list. -/
theorem rstripSlash_lt {l : List Char} (h : l.getLast? = some '/') :
    (rstripSlash l).length < l.length := by
  unfold rstripSlash
  rw [List.length_reverse]
  have h' : l.reverse.head? = some '/' := by rw [List.head?_reverse]; exact h
  obtain ⟨t, ht⟩ : ∃ t, l.reverse = '/' :: t := by
    cases hr : l.reverse with
    | nil => rw [hr] at h'; cases h'
    | cons c t =>
      rw [hr] at h'
      simp only [List.head?_cons, Option.some.injEq] at h'
      exact ⟨t, by rw [h']⟩
  have hlen : l.length = t.length + 1 := by
    have := congrArg List.length ht
    simpa using this
  rw [ht]
  have hstep : List.dropWhile (fun c => decide (c = '/')) ('/' :: t) =
      List.dropWhile (fun c => decide (c = '/')) t := by
    simp [List.dropWhile_cons]
  rw [hstep]
  have := dropWhile_len_le (fun c => decide (c = '/')) t
  omega

/-- Removing trailing separators from a list whose last element is not a
separator is the identity. -/
theorem rstripSlash_append_sep {X : List Char} (hX : X.getLast? ≠ some '/') :
    rstripSlash (X ++ ['/']) = X := by
  unfold rstripSlash
  rw [List.reverse_append]
  have hstep : List.dropWhile (fun c => decide (c = '/')) ('/' :: X.reverse) =
      List.dropWhile (fun c => decide (c = '/')) X.reverse := by
    simp [List.dropWhile_cons]
  have hid : List.dropWhile (fun c => decide (c = '/')) X.reverse = X.reverse := by
    cases hr : X.reverse with
    | nil => rfl
    | cons c t =>
      have hc : ¬(c = '/') := by
        intro hcc
        exact hX (by rw [← List.head?_reverse, hr, hcc]; rfl)
      rw [List.dropWhile_cons, if_neg (by simpa using hc)]
  show (List.dropWhile (fun c => decide (c = '/')) ('/' :: X.reverse)).reverse = X
  rw [hstep, hid, List.reverse_reverse]

/-- The dirname of a path never has more characters than the path. -/
theorem dirname_len_le (p : String) :
    (osPathDirname p).data.length ≤ p.data.length := by
  unfold osPathDirname
  split
  · calc (rstripSlash (headToLastSep p.data)).length
        ≤ (headToLastSep p.data).length := rstripSlash_len_le _
      _ ≤ p.data.length := headToLastSep_len _
  · exact headToLastSep_len _

/-- A path is a fixpoint of `osPathDirname` or strictly shrinks under it. -/
theorem dirname_shrink (p : String) :
    osPathDirname p = p ∨ (osPathDirname p).data.length < p.data.length := by
  unfold osPathDirname
  by_cases hcond : headToLastSep p.data ≠ [] ∧
      (headToLastSep p.data).any (fun c => c ≠ '/')
  · rw [if_pos hcond]
    right
    calc (rstripSlash (headToLastSep p.data)).length
        < (headToLastSep p.data).length :=
          rstripSlash_lt (headToLastSep_last hcond.1)
      _ ≤ p.data.length := headToLastSep_len _
  · rw [if_neg hcond]
    by_cases heq : headToLastSep p.data = p.data
    · left
      exact strDataInj (by simpa using heq)
    · right
      have hpre := headToLastSep_pre p.data
      exact Nat.lt_of_le_of_ne hpre.length_le
        (fun hl => heq (hpre.eq_of_length hl))

/-- `segsData` of a cons with nonempty tail unfolds to a separator split. -/
theorem segsData_cons₂ (s r : String) (rest : List String) :
    segsData (s :: r :: rest) = s.data ++ '/' :: segsData (r :: rest) := rfl

/-- Appending one segment appends its data after a separator. -/
theorem icTail_append_one (xs : List String) (last : String) :
    icTail (xs ++ [last]) = icTail xs ++ '/' :: last.data := by
  induction xs with
  | nil => simp [icTail]
  | cons x xs ih => simp [icTail, ih]

/-- `segsData` of a snoc with nonempty front splits at the separator. -/
theorem segsData_append_one {init : List String} (hinit : init ≠ [])
    (last : String) :
    segsData (init ++ [last]) = segsData init ++ '/' :: last.data := by
  cases init with
  | nil => exact absurd rfl hinit
  | cons x rest =>
    show segsData (x :: (rest ++ [last])) = _
    simp [segsData, icTail_append_one]

/-- The data of a nonempty segment-safe segment list is nonempty. -/
theorem segsData_ne_nil {xs : List String} (hne : xs ≠ [])
    (hok : ∀ s ∈ xs, SegOK s) : segsData xs ≠ [] := by
  cases xs with
  | nil => exact absurd rfl hne
  | cons s rest =>
    have hs := hok s (List.mem_cons_self _ _)
    simp [segsData, hs.1]

/-- The data of a nonempty segment-safe segment list ends with the last
character of its last segment, never the separator. -/
theorem segsData_getLast_ne : ∀ {xs : List String}, xs ≠ [] →
    (∀ s ∈ xs, SegOK s) → (segsData xs).getLast? ≠ some '/' := by
  intro xs
  induction xs with
  | nil => intro h; exact absurd rfl h
  | cons s rest ih =>
    intro _ hok
    cases rest with
    | nil =>
      show (s.data ++ icTail []).getLast? ≠ some '/'
      simpa [icTail] using sep_not_last (hok s (List.mem_cons_self _ _))
    | cons r rest' =>
      rw [segsData_cons₂]
      have hne : segsData (r :: rest') ≠ [] :=
        segsData_ne_nil (by simp)
          (fun u hu => hok u (List.mem_cons_of_mem _ hu))
      have hsplit : s.data ++ '/' :: segsData (r :: rest') =
          (s.data ++ ['/']) ++ segsData (r :: rest') := by simp
      rw [hsplit, List.getLast?_append_of_ne_nil _ hne]
      exact ih (by simp) (fun u hu => hok u (List.mem_cons_of_mem _ hu))

/-- Two separator splits with separator-free front parts coincide
componentwise. -/
theorem sep_split : ∀ {xs : List Char} {ys r₁ r₂ : List Char}, '/' ∉ xs →
    '/' ∉ ys → xs ++ '/' :: r₁ = ys ++ '/' :: r₂ → xs = ys ∧ r₁ = r₂ := by
  intro xs
  induction xs with
  | nil =>
    intro ys r₁ r₂ _ hy h
    cases ys with
    | nil => simpa using h
    | cons b ys' =>
      exfalso
      simp only [List.nil_append, List.cons_append, List.cons.injEq] at h
      exact hy (List.mem_cons.mpr (Or.inl h.1))
  | cons a xs' ih =>
    intro ys r₁ r₂ hx hy h
    cases ys with
    | nil =>
      exfalso
      simp only [List.nil_append, List.cons_append, List.cons.injEq] at h
      exact hx (List.mem_cons.mpr (Or.inl h.1.symm))
    | cons b ys' =>
      simp only [List.cons_append, List.cons.injEq] at h
      obtain ⟨rfl, h2⟩ := h
      obtain ⟨h3, h4⟩ := ih (fun hm => hx (List.mem_cons_of_mem _ hm))
        (fun hm => hy (List.mem_cons_of_mem _ hm)) h2
      exact ⟨by rw [h3], h4⟩

/-- `segsData` is injective on segment-safe segment lists. -/
theorem segsData_inj : ∀ {xs ys : List String}, (∀ s ∈ xs, SegOK s) →
    (∀ s ∈ ys, SegOK s) → segsData xs = segsData ys → xs = ys := by
  intro xs
  induction xs with
  | nil =>
    intro ys _ hys h
    cases ys with
    | nil => rfl
    | cons y ys' =>
      exfalso
      have hy := hys y (List.mem_cons_self _ _)
      exact segsData_ne_nil (by simp) hys (by simpa [segsData] using h.symm)
  | cons x xs' ih =>
    intro ys hxs hys h
    cases ys with
    | nil =>
      exfalso
      exact segsData_ne_nil (by simp) hxs (by simpa [segsData] using h)
    | cons y ys' =>
      have hx := hxs x (List.mem_cons_self _ _)
      have hy := hys y (List.mem_cons_self _ _)
      cases xs' with
      | nil =>
        cases ys' with
        | nil =>
          have : x = y := strDataInj (by simpa [segsData, icTail] using h)
          rw [this]
        | cons y' ys'' =>
          exfalso
          rw [segsData_cons₂] at h
          have hxdata : segsData [x] = x.data := by simp [segsData, icTail]
          rw [hxdata] at h
          exact hx.2 (h ▸ List.mem_append_right _ (List.mem_cons_self _ _))
      | cons x' xs'' =>
        cases ys' with
        | nil =>
          exfalso
          rw [segsData_cons₂] at h
          have hydata : segsData [y] = y.data := by simp [segsData, icTail]
          rw [hydata] at h
          exact hy.2 (h.symm ▸ List.mem_append_right _ (List.mem_cons_self _ _))
        | cons y' ys'' =>
          rw [segsData_cons₂, segsData_cons₂] at h
          obtain ⟨h1, h2⟩ := sep_split hx.2 hy.2 h
          have := ih (fun u hu => hxs u (List.mem_cons_of_mem _ hu))
            (fun u hu => hys u (List.mem_cons_of_mem _ hu)) h2
          rw [strDataInj h1, this]

/-- The base prefix never ends mid-segment: it is empty or ends with the
separator. -/
theorem normBase_last (b : String) :
    normBase b = [] ∨ (normBase b).getLast? = some '/' := by
  unfold normBase
  split
  · next h =>
    rcases h with h | h
    · left; exact h
    · right; exact h
  · right
    rw [List.getLast?_append_of_ne_nil _ (by simp)]
    rfl

/-- Dirname of a normal-form path with at least two segments drops exactly
the last segment. -/
theorem dirname_nf (B : List Char) (init : List String) (last : String)
    (hinit : init ≠ [])
    (hinitOK : ∀ s ∈ init, SegOK s) (hlast : SegOK last) :
    osPathDirname ⟨B ++ segsData (init ++ [last])⟩ = ⟨B ++ segsData init⟩ := by
  have hdata : (⟨B ++ segsData (init ++ [last])⟩ : String).data =
      (B ++ segsData init) ++ '/' :: last.data := by
    show B ++ segsData (init ++ [last]) = _
    rw [segsData_append_one hinit, List.append_assoc]
  have hH : headToLastSep ((B ++ segsData init) ++ '/' :: last.data) =
      (B ++ segsData init) ++ ['/'] := headToLastSep_append hlast.2 _
  obtain ⟨x, rest, rfl⟩ : ∃ x rest, init = x :: rest := by
    cases init with
    | nil => exact absurd rfl hinit
    | cons x rest => exact ⟨x, rest, rfl⟩
  have hx : SegOK x := hinitOK x (List.mem_cons_self _ _)
  obtain ⟨c, cs, hd⟩ : ∃ c cs, x.data = c :: cs := by
    cases hdd : x.data with
    | nil => exact absurd hdd hx.1
    | cons c cs => exact ⟨c, cs, rfl⟩
  have hcmem : c ∈ x.data := by
    rw [hd]
    exact List.mem_cons_self _ _
  have hcsep : c ≠ '/' := fun h => hx.2 (h ▸ hcmem)
  have hcmem₂ : c ∈ (B ++ segsData (x :: rest)) ++ ['/'] := by
    apply List.mem_append_left
    apply List.mem_append_right
    show c ∈ segsData (x :: rest)
    exact List.mem_append_left _ hcmem
  unfold osPathDirname
  rw [hdata, hH]
  rw [if_pos ⟨by simp, List.any_eq_true.mpr ⟨c, hcmem₂, by simpa using hcsep⟩⟩]
  apply strDataInj
  show rstripSlash ((B ++ segsData (x :: rest)) ++ ['/']) = _
  rw [rstripSlash_append_sep]
  rw [List.getLast?_append_of_ne_nil _
      (segsData_ne_nil (by simp) hinitOK)]
  exact segsData_getLast_ne (by simp) hinitOK

/-- Dirname of the base followed by one separator-free component stays
within the base. -/
theorem dirname_base_len (B : List Char) (s : String) (hs : '/' ∉ s.data) :
    (osPathDirname ⟨B ++ s.data⟩).data.length ≤ B.length := by
  have hH : headToLastSep (B ++ s.data) = headToLastSep B :=
    headToLastSep_append_nosep hs B
  have hlen : (headToLastSep B).length ≤ B.length := headToLastSep_len B
  unfold osPathDirname
  split
  · show (rstripSlash (headToLastSep (B ++ s.data))).length ≤ B.length
    rw [hH]
    exact le_trans (rstripSlash_len_le _) hlen
  · show (headToLastSep (B ++ s.data)).length ≤ B.length
    rw [hH]
    exact hlen

/-- Join of segment-safe components over a common base is injective. -/
theorem osPathJoin_inj (b : String) {xs ys : List String} (hxs : xs ≠ [])
    (hys : ys ≠ []) (hxsOK : ∀ s ∈ xs, SegOK s) (hysOK : ∀ s ∈ ys, SegOK s)
    (h : osPathJoin b xs = osPathJoin b ys) : xs = ys := by
  obtain ⟨x, xr, rfl⟩ : ∃ x xr, xs = x :: xr := by
    cases xs with
    | nil => exact absurd rfl hxs
    | cons x xr => exact ⟨x, xr, rfl⟩
  obtain ⟨y, yr, rfl⟩ : ∃ y yr, ys = y :: yr := by
    cases ys with
    | nil => exact absurd rfl hys
    | cons y yr => exact ⟨y, yr, rfl⟩
  rw [osPathJoin_nf b x xr (hxsOK x (List.mem_cons_self _ _))
        (fun t ht => hxsOK t (List.mem_cons_of_mem _ ht)),
      osPathJoin_nf b y yr (hysOK y (List.mem_cons_self _ _))
        (fun t ht => hysOK t (List.mem_cons_of_mem _ ht))] at h
  have hdata : normBase b ++ segsData (x :: xr) =
      normBase b ++ segsData (y :: yr) := congrArg String.data h
  exact segsData_inj hxsOK hysOK (List.append_cancel_left hdata)

/-- Enough fuel makes the fuel-based chain independent of the exact amount. -/
theorem dirChainFuel_adequate : ∀ n m : Nat, ∀ p : String,
    p.data.length ≤ n → p.data.length ≤ m →
    dirChainFuel n p = dirChainFuel m p := by
  intro n
  induction n with
  | zero =>
    intro m p hn _
    have hp : p.data = [] := List.eq_nil_of_length_eq_zero (Nat.le_zero.mp hn)
    have hfix : osPathDirname p = p := by
      apply strDataInj
      show (osPathDirname p).data = p.data
      have := dirname_len_le p
      rw [hp] at this ⊢
      exact List.eq_nil_of_length_eq_zero (Nat.le_zero.mp this)
    cases m with
    | zero => rfl
    | succ m => rw [show dirChainFuel (m + 1) p =
        if osPathDirname p = p then [p]
        else p :: dirChainFuel m (osPathDirname p) from rfl, if_pos hfix]; rfl
  | succ n ih =>
    intro m p hn hm
    cases m with
    | zero =>
      have hp : p.data = [] := List.eq_nil_of_length_eq_zero (Nat.le_zero.mp hm)
      have hfix : osPathDirname p = p := by
        apply strDataInj
        show (osPathDirname p).data = p.data
        have := dirname_len_le p
        rw [hp] at this ⊢
        exact List.eq_nil_of_length_eq_zero (Nat.le_zero.mp this)
      show (if osPathDirname p = p then [p]
        else p :: dirChainFuel n (osPathDirname p)) = [p]
      rw [if_pos hfix]
    | succ m =>
      show (if osPathDirname p = p then [p]
          else p :: dirChainFuel n (osPathDirname p)) =
        (if osPathDirname p = p then [p]
          else p :: dirChainFuel m (osPathDirname p))
      by_cases hfix : osPathDirname p = p
      · rw [if_pos hfix, if_pos hfix]
      · rw [if_neg hfix, if_neg hfix]
        have hlt : (osPathDirname p).data.length < p.data.length :=
          (dirname_shrink p).resolve_left hfix
        rw [ih m (osPathDirname p) (by omega) (by omega)]

/-- Unfolding `dirChain` at a fixpoint. -/
theorem dirChain_fix {p : String} (h : osPathDirname p = p) :
    dirChain p = [p] := by
  unfold dirChain
  cases hn : p.data.length with
  | zero => rfl
  | succ n =>
    show (if osPathDirname p = p then [p]
      else p :: dirChainFuel n (osPathDirname p)) = [p]
    rw [if_pos h]

/-- Unfolding `dirChain` at a non-fixpoint. -/
theorem dirChain_step {p : String} (h : osPathDirname p ≠ p) :
    dirChain p = p :: dirChain (osPathDirname p) := by
  have hlt : (osPathDirname p).data.length < p.data.length :=
    (dirname_shrink p).resolve_left h
  unfold dirChain
  cases hn : p.data.length with
  | zero => omega
  | succ n =>
    show (if osPathDirname p = p then [p]
      else p :: dirChainFuel n (osPathDirname p)) = _
    rw [if_neg h]
    rw [dirChainFuel_adequate n (osPathDirname p).data.length (osPathDirname p)
        (by omega) (le_refl _)]

/-- Every member of a dirname chain is at most as long as its start. -/
theorem mem_dirChain_len : ∀ (n : Nat) (p q : String),
    q ∈ dirChainFuel n p → q.data.length ≤ p.data.length := by
  intro n
  induction n with
  | zero =>
    intro p q h
    rw [show dirChainFuel 0 p = [p] from rfl] at h
    rw [List.mem_singleton.mp h]
  | succ n ih =>
    intro p q h
    rw [show dirChainFuel (n + 1) p =
      if osPathDirname p = p then [p]
      else p :: dirChainFuel n (osPathDirname p) from rfl] at h
    by_cases hfix : osPathDirname p = p
    · rw [if_pos hfix] at h
      rw [List.mem_singleton.mp h]
    · rw [if_neg hfix] at h
      rcases List.mem_cons.mp h with h1 | h2
      · rw [h1]
      · exact le_trans (ih _ _ h2) (dirname_len_le p)

/-- Every member of `dirChain p` is at most as long as `p`. -/
theorem mem_dirChain_len' {p q : String} (h : q ∈ dirChain p) :
    q.data.length ≤ p.data.length :=
  mem_dirChain_len _ p q h

/-- All SegOK membership for an explicit three-element list. -/
theorem segOK3 {x₁ x₂ x₃ : String} (h₁ : SegOK x₁) (h₂ : SegOK x₂)
    (h₃ : SegOK x₃) : ∀ s ∈ [x₁, x₂, x₃], SegOK s := by
  intro s hs
  rcases List.mem_cons.mp hs with rfl | hs
  · exact h₁
  rcases List.mem_cons.mp hs with rfl | hs
  · exact h₂
  rcases List.mem_cons.mp hs with rfl | hs
  · exact h₃
  cases hs

/-- The data of a segment list led by a segment-safe segment is nonempty. -/
theorem segsData_len_pos {x : String} (hx : SegOK x) (rest : List String) :
    0 < (segsData (x :: rest)).length := by
  show 0 < (x.data ++ icTail rest).length
  rw [List.length_append]
  have : 0 < x.data.length := List.length_pos.mpr hx.1
  omega

/-- A three-segment path over a base is never a member of the directory
chain that a write to another three-segment path over the same base creates
(the chain of `dirname` of that path): the chain holds only two-segment and
one-segment paths and ancestors of the base itself. -/
theorem path3_not_in_chain (b : String) {x₁ x₂ x₃ y₁ y₂ y₃ : String}
    (hx₁ : SegOK x₁) (hx₂ : SegOK x₂) (hx₃ : SegOK x₃)
    (hy₁ : SegOK y₁) (hy₂ : SegOK y₂) (hy₃ : SegOK y₃) :
    osPathJoin b [x₁, x₂, x₃] ∉
      dirChain (osPathDirname (osPathJoin b [y₁, y₂, y₃])) := by
  have hxOK := segOK3 hx₁ hx₂ hx₃
  have hyOK := segOK3 hy₁ hy₂ hy₃
  have hy12OK : ∀ s ∈ [y₁, y₂], SegOK s := by
    intro s hs
    rcases List.mem_cons.mp hs with rfl | hs
    · exact hy₁
    rcases List.mem_cons.mp hs with rfl | hs
    · exact hy₂
    cases hs
  have hy1OK : ∀ s ∈ [y₁], SegOK s := by
    intro s hs
    rcases List.mem_cons.mp hs with rfl | hs
    · exact hy₁
    cases hs
  have hQ : osPathJoin b [x₁, x₂, x₃] = ⟨normBase b ++ segsData [x₁, x₂, x₃]⟩ :=
    osPathJoin_nf b x₁ [x₂, x₃] hx₁
      (fun t ht => hxOK t (List.mem_cons_of_mem _ ht))
  have hP : osPathJoin b [y₁, y₂, y₃] = ⟨normBase b ++ segsData [y₁, y₂, y₃]⟩ :=
    osPathJoin_nf b y₁ [y₂, y₃] hy₁
      (fun t ht => hyOK t (List.mem_cons_of_mem _ ht))
  have hd1 : osPathDirname ⟨normBase b ++ segsData [y₁, y₂, y₃]⟩ =
      ⟨normBase b ++ segsData [y₁, y₂]⟩ :=
    dirname_nf (normBase b) [y₁, y₂] y₃ (by simp) hy12OK hy₃
  have hd2 : osPathDirname ⟨normBase b ++ segsData [y₁, y₂]⟩ =
      ⟨normBase b ++ segsData [y₁]⟩ :=
    dirname_nf (normBase b) [y₁] y₂ (by simp) hy1OK hy₂
  have hlen12 : (segsData [y₁, y₂]).length =
      y₁.data.length + 1 + y₂.data.length := by
    simp [segsData, icTail]
    omega
  have hlen1 : (segsData [y₁]).length = y₁.data.length := by
    simp [segsData, icTail]
  have hne2 : osPathDirname ⟨normBase b ++ segsData [y₁, y₂]⟩ ≠
      ⟨normBase b ++ segsData [y₁, y₂]⟩ := by
    rw [hd2]
    intro h
    have := congrArg (fun s => s.data.length) h
    simp only [List.length_append] at this
    rw [hlen12, hlen1] at this
    have := List.length_pos.mpr hy₂.1
    omega
  have hs1 : segsData [y₁] = y₁.data := by simp [segsData, icTail]
  have hd3len : (osPathDirname ⟨normBase b ++ segsData [y₁]⟩).data.length ≤
      (normBase b).length := by
    rw [hs1]
    exact dirname_base_len (normBase b) y₁ hy₁.2
  have hne1 : osPathDirname ⟨normBase b ++ segsData [y₁]⟩ ≠
      ⟨normBase b ++ segsData [y₁]⟩ := by
    intro h
    have := congrArg (fun s => s.data.length) h
    rw [h] at hd3len
    simp only [List.length_append] at hd3len
    rw [hs1] at hd3len
    have := List.length_pos.mpr hy₁.1
    omega
  have hQlen : (normBase b).length < (osPathJoin b [x₁, x₂, x₃]).data.length := by
    rw [hQ]
    show (normBase b).length < (normBase b ++ segsData [x₁, x₂, x₃]).length
    rw [List.length_append]
    have := segsData_len_pos hx₁ [x₂, x₃]
    omega
  rw [hP, hd1, dirChain_step hne2, hd2, dirChain_step hne1]
  intro hmem
  rcases List.mem_cons.mp hmem with heq | hmem
  · rw [hQ] at heq
    have hdata : normBase b ++ segsData [x₁, x₂, x₃] =
        normBase b ++ segsData [y₁, y₂] := congrArg String.data heq
    have := segsData_inj hxOK hy12OK (List.append_cancel_left hdata)
    simp at this
  rcases List.mem_cons.mp hmem with heq | hmem
  · rw [hQ] at heq
    have hdata : normBase b ++ segsData [x₁, x₂, x₃] =
        normBase b ++ segsData [y₁] := congrArg String.data heq
    have := segsData_inj hxOK hy1OK (List.append_cancel_left hdata)
    simp at this
  · have := mem_dirChain_len' hmem
    omega

/-- Two different segment-safe three-segment key lists over a common base
resolve to different paths. -/
theorem path3_ne (b : String) {x₁ x₂ x₃ y₁ y₂ y₃ : String}
    (hx₁ : SegOK x₁) (hx₂ : SegOK x₂) (hx₃ : SegOK x₃)
    (hy₁ : SegOK y₁) (hy₂ : SegOK y₂) (hy₃ : SegOK y₃)
    (hne : ¬(x₁ = y₁ ∧ x₂ = y₂ ∧ x₃ = y₃)) :
    osPathJoin b [x₁, x₂, x₃] ≠ osPathJoin b [y₁, y₂, y₃] := by
  intro h
  have := osPathJoin_inj b (by simp) (by simp)
    (segOK3 hx₁ hx₂ hx₃) (segOK3 hy₁ hy₂ hy₃) h
  simp only [List.cons.injEq, and_true] at this
  exact hne ⟨this.1, this.2.1, this.2.2⟩

/-- Characterization of a successful raw write: the target now holds the
file; entries away from the target and its created directories are
untouched; and file-ness away from the target is unchanged (created
directories only fill absent entries). -/
theorem fsWriteFile_entries {α : Type} {fs fs' : FS α} {p : String} {v : α}
    (h : fsWriteFile fs p v = .ok fs') :
    fs'.entries p = some (.file v) ∧
    (∀ q, q ≠ p → q ∉ dirChain (osPathDirname p) →
      fs'.entries q = fs.entries q) ∧
    (∀ q, q ≠ p → isFileEntry (fs'.entries q) = isFileEntry (fs.entries q)) := by
  unfold fsWriteFile at h
  split at h
  · cases h
  · next fs₁ hmk =>
    have hfs₁ : fs₁ = ⟨fun q =>
        if (fs.entries q).isNone && decide (q ≠ "") &&
            decide (q ∈ dirChain (osPathDirname p))
        then some .dir else fs.entries q⟩ := by
      unfold mkdir_p at hmk
      split at hmk
      · cases hmk
      · split at hmk
        · cases hmk
        · exact (Except.ok.inj hmk).symm
    split at h
    · cases h
    · split at h
      · cases h
      · have hfs' : fs' = ⟨fun q => if q = p then some (.file v)
            else fs₁.entries q⟩ := (Except.ok.inj h).symm
        subst hfs'
        refine ⟨by simp, ?_, ?_⟩
        · intro q hq hchain
          show (if q = p then some (.file v) else fs₁.entries q) = fs.entries q
          rw [if_neg hq, hfs₁]
          show (if _ && _ && decide (q ∈ dirChain (osPathDirname p))
            then some FSEntry.dir else fs.entries q) = fs.entries q
          rw [Bool.and_eq_false_iff.mpr (Or.inr (by simpa using hchain))]
          rfl
        · intro q hq
          show isFileEntry (if q = p then some (.file v) else fs₁.entries q) =
            isFileEntry (fs.entries q)
          rw [if_neg hq, hfs₁]
          show isFileEntry (if _ then some FSEntry.dir else fs.entries q) =
            isFileEntry (fs.entries q)
          split
          · next hcond =>
            have hnone : fs.entries q = none := by
              simp only [Bool.and_eq_true] at hcond
              exact Option.isNone_iff_eq_none.mp hcond.1.1
            rw [hnone]
            rfl
          · rfl

/-- A successful write sequence decomposes at the head. -/
theorem fsRunWrites_cons_ok {α : Type} {p : String} {v : α}
    {ps : List (String × α)} {fs fs' : FS α}
    (h : fsRunWrites ((p, v) :: ps) fs = .ok fs') :
    ∃ fs₁, fsWriteFile fs p v = .ok fs₁ ∧ fsRunWrites ps fs₁ = .ok fs' := by
  unfold fsRunWrites at h
  cases hw : fsWriteFile fs p v with
  | error e => rw [hw] at h; cases h
  | ok fs₁ => rw [hw] at h; exact ⟨fs₁, rfl, h⟩

/-- A regular file survives any successful sequence of writes (later writes
either overwrite it with another file or leave it alone; created directories
never displace a file). -/
theorem fsRunWrites_file_mono {α : Type} :
    ∀ (ps : List (String × α)) (fs fs' : FS α),
    fsRunWrites ps fs = .ok fs' → ∀ q,
    isFileEntry (fs.entries q) = true → isFileEntry (fs'.entries q) = true := by
  intro ps
  induction ps with
  | nil =>
    intro fs fs' h q hf
    rw [show fsRunWrites [] fs = .ok fs from rfl] at h
    rw [← Except.ok.inj h]
    exact hf
  | cons pv ps ih =>
    intro fs fs' h q hf
    obtain ⟨p, v⟩ := pv
    obtain ⟨fs₁, hw, hrest⟩ := fsRunWrites_cons_ok h
    apply ih fs₁ fs' hrest q
    by_cases hqp : q = p
    · rw [hqp, (fsWriteFile_entries hw).1]
      rfl
    · rw [(fsWriteFile_entries hw).2.2 q hqp]
      exact hf

/-- Entries away from all written paths and their created directories are
untouched by a successful sequence of writes. -/
theorem fsRunWrites_untouched {α : Type} :
    ∀ (ps : List (String × α)) (fs fs' : FS α),
    fsRunWrites ps fs = .ok fs' → ∀ q,
    (∀ pv ∈ ps, q ≠ pv.1 ∧ q ∉ dirChain (osPathDirname pv.1)) →
    fs'.entries q = fs.entries q := by
  intro ps
  induction ps with
  | nil =>
    intro fs fs' h q _
    rw [show fsRunWrites [] fs = .ok fs from rfl] at h
    rw [← Except.ok.inj h]
  | cons pv ps ih =>
    intro fs fs' h q hq
    obtain ⟨p, v⟩ := pv
    obtain ⟨fs₁, hw, hrest⟩ := fsRunWrites_cons_ok h
    have hhead := hq (p, v) (List.mem_cons_self _ _)
    rw [ih fs₁ fs' hrest q (fun pv hpv => hq pv (List.mem_cons_of_mem _ hpv))]
    exact (fsWriteFile_entries hw).2.1 q hhead.1 hhead.2

/-- A regular file present after a successful sequence of writes was
present before it or sits at one of the written paths. -/
theorem fsRunWrites_file_src {α : Type} :
    ∀ (ps : List (String × α)) (fs fs' : FS α),
    fsRunWrites ps fs = .ok fs' → ∀ q,
    isFileEntry (fs'.entries q) = true →
    isFileEntry (fs.entries q) = true ∨ ∃ pv ∈ ps, q = pv.1 := by
  intro ps
  induction ps with
  | nil =>
    intro fs fs' h q hf
    rw [show fsRunWrites [] fs = .ok fs from rfl] at h
    rw [← Except.ok.inj h] at hf
    exact Or.inl hf
  | cons pv ps ih =>
    intro fs fs' h q hf
    obtain ⟨p, v⟩ := pv
    obtain ⟨fs₁, hw, hrest⟩ := fsRunWrites_cons_ok h
    rcases ih fs₁ fs' hrest q hf with h1 | ⟨pv', hpv', rfl⟩
    · by_cases hqp : q = p
      · exact Or.inr ⟨(p, v), List.mem_cons_self _ _, hqp⟩
      · rw [(fsWriteFile_entries hw).2.2 q hqp] at h1
        exact Or.inl h1
    · exact Or.inr ⟨pv', List.mem_cons_of_mem _ hpv', rfl⟩

/-- A segment-safe optional field is present with a segment-safe value. -/
theorem optSegOK_some {o : Option String} (h : OptSegOK o) :
    ∃ s, o = some s ∧ SegOK s := by
  cases o with
  | none => cases h
  | some s => exact ⟨s, rfl, h⟩

/-- Versioned path resolution with a present version. -/
theorem vfsGetPath_eq {b : String} {c : AssetStoreContext} {cv : String}
    (hcv : c.version = some cv) :
    VersionedPickledObjectFilesystemAssetStore.getPath ⟨some b⟩ c =
      .ok (osPathJoin b [c.step_key, c.output_name, cv]) := by
  unfold VersionedPickledObjectFilesystemAssetStore.getPath
  rw [hcv]
  rfl

/-- Versioned path resolution produces `vWritePath`. -/
theorem vfsGetPath_eq' {b : String} {c : AssetStoreContext} {cv : String}
    (hcv : c.version = some cv) :
    VersionedPickledObjectFilesystemAssetStore.getPath ⟨some b⟩ c =
      .ok (vWritePath b c) := by
  rw [vfsGetPath_eq hcv]
  unfold vWritePath
  rw [hcv]
  rfl

/-- Versioned `set_asset` with a present version is the raw write at the
versioned path. -/
theorem vfsSet_eq {α : Type} {b : String} {c : AssetStoreContext}
    {cv : String} (hcv : c.version = some cv) (fs : FS α) (v : α) :
    VersionedPickledObjectFilesystemAssetStore.set_asset ⟨some b⟩ fs c v =
      (match fsWriteFile fs (vWritePath b c) v with
       | .error e => .error e
       | .ok fs' => .ok (fs', none)) := by
  unfold VersionedPickledObjectFilesystemAssetStore.set_asset
  rw [vfsGetPath_eq' hcv]

/-- Run-scoped path resolution with a present run id. -/
theorem pfsGetPath_eq {b r : String} {c : AssetStoreContext}
    (hr : c.source_run_id = some r) :
    PickledObjectFilesystemAssetStore.getPath ⟨some b⟩ c =
      .ok (osPathJoin b [r, c.step_key, c.output_name]) := by
  unfold PickledObjectFilesystemAssetStore.getPath
  rw [hr]

/-- Run-scoped path resolution produces `pWritePath`. -/
theorem pfsGetPath_eq' {b r : String} {c : AssetStoreContext}
    (hr : c.source_run_id = some r) :
    PickledObjectFilesystemAssetStore.getPath ⟨some b⟩ c =
      .ok (pWritePath b c) := by
  rw [pfsGetPath_eq hr]
  unfold pWritePath
  rw [hr]
  rfl

/-- Run-scoped `set_asset` with a present run id is the raw write at the
run-scoped path. -/
theorem pfsSet_eq {α : Type} {b r : String} {c : AssetStoreContext}
    (hr : c.source_run_id = some r) (fs : FS α) (v : α) :
    PickledObjectFilesystemAssetStore.set_asset ⟨some b⟩ fs c v =
      (match fsWriteFile fs (pWritePath b c) v with
       | .error e => .error e
       | .ok fs' => .ok (fs', none)) := by
  unfold PickledObjectFilesystemAssetStore.set_asset
  rw [pfsGetPath_eq' hr]

/-- A successful versioned write sequence decomposes at the head. -/
theorem vRunWrites_cons_ok {α : Type}
    {st : VersionedPickledObjectFilesystemAssetStore}
    {c : AssetStoreContext} {v : α} {ws : List (AssetStoreContext × α)}
    {fs fs' : FS α} (h : vRunWrites st ((c, v) :: ws) fs = .ok fs') :
    ∃ fs₁ m, st.set_asset fs c v = .ok (fs₁, m) ∧
      vRunWrites st ws fs₁ = .ok fs' := by
  unfold vRunWrites at h
  cases hw : st.set_asset (α := α) fs c v with
  | error e => rw [hw] at h; cases h
  | ok r =>
    obtain ⟨fs₁, m⟩ := r
    rw [hw] at h
    exact ⟨fs₁, m, rfl, h⟩

/-- A successful run-scoped write sequence decomposes at the head. -/
theorem pRunWrites_cons_ok {α : Type}
    {st : PickledObjectFilesystemAssetStore}
    {c : AssetStoreContext} {v : α} {ws : List (AssetStoreContext × α)}
    {fs fs' : FS α} (h : pRunWrites st ((c, v) :: ws) fs = .ok fs') :
    ∃ fs₁ m, st.set_asset fs c v = .ok (fs₁, m) ∧
      pRunWrites st ws fs₁ = .ok fs' := by
  unfold pRunWrites at h
  cases hw : st.set_asset (α := α) fs c v with
  | error e => rw [hw] at h; cases h
  | ok r =>
    obtain ⟨fs₁, m⟩ := r
    rw [hw] at h
    exact ⟨fs₁, m, rfl, h⟩

/-- A versioned write sequence whose contexts carry versions is the raw
write sequence over the versioned paths. -/
theorem vRunWrites_eq {α : Type} (b : String) :
    ∀ (ws : List (AssetStoreContext × α)) (fs : FS α),
    (∀ w ∈ ws, w.1.version ≠ none) →
    vRunWrites ⟨some b⟩ ws fs =
      fsRunWrites (ws.map (fun w => (vWritePath b w.1, w.2))) fs := by
  intro ws
  induction ws with
  | nil => intro fs _; rfl
  | cons w ws ih =>
    intro fs hver
    obtain ⟨c, v⟩ := w
    obtain ⟨cv, hcv⟩ : ∃ cv, c.version = some cv := by
      cases hv : c.version with
      | none => exact absurd hv (hver (c, v) (List.mem_cons_self _ _))
      | some cv => exact ⟨cv, rfl⟩
    show vRunWrites ⟨some b⟩ ((c, v) :: ws) fs = _
    unfold vRunWrites
    rw [vfsSet_eq hcv]
    show _ = fsRunWrites ((vWritePath b c, v) :: _) fs
    unfold fsRunWrites
    cases hw : fsWriteFile fs (vWritePath b c) v with
    | error e => rfl
    | ok fs₁ => exact ih fs₁ (fun u hu => hver u (List.mem_cons_of_mem _ hu))

/-- A run-scoped write sequence whose contexts carry run ids is the raw
write sequence over the run-scoped paths. -/
theorem pRunWrites_eq {α : Type} (b : String) :
    ∀ (ws : List (AssetStoreContext × α)) (fs : FS α),
    (∀ w ∈ ws, w.1.source_run_id ≠ none) →
    pRunWrites ⟨some b⟩ ws fs =
      fsRunWrites (ws.map (fun w => (pWritePath b w.1, w.2))) fs := by
  intro ws
  induction ws with
  | nil => intro fs _; rfl
  | cons w ws ih =>
    intro fs hrun
    obtain ⟨c, v⟩ := w
    obtain ⟨r, hr⟩ : ∃ r, c.source_run_id = some r := by
      cases hv : c.source_run_id with
      | none => exact absurd hv (hrun (c, v) (List.mem_cons_self _ _))
      | some r => exact ⟨r, rfl⟩
    show pRunWrites ⟨some b⟩ ((c, v) :: ws) fs = _
    unfold pRunWrites
    rw [pfsSet_eq hr]
    show _ = fsRunWrites ((pWritePath b c, v) :: _) fs
    unfold fsRunWrites
    cases hw : fsWriteFile fs (pWritePath b c) v with
    | error e => rfl
    | ok fs₁ => exact ih fs₁ (fun u hu => hrun u (List.mem_cons_of_mem _ hu))

/-- Unpacking the segment-safety bundle of a versioned-key context. -/
theorem vctxOK_fields {c : AssetStoreContext} (h : VCtxOK c) :
    ∃ cv, c.version = some cv ∧ SegOK c.step_key ∧ SegOK c.output_name ∧
      SegOK cv := by
  obtain ⟨cv, hcv, hok⟩ := optSegOK_some h.2.2
  exact ⟨cv, hcv, h.1, h.2.1, hok⟩

/-- Unpacking the segment-safety bundle of a run-scoped-key context. -/
theorem pctxOK_fields {c : AssetStoreContext} (h : PCtxOK c) :
    ∃ r, c.source_run_id = some r ∧ SegOK r ∧ SegOK c.step_key ∧
      SegOK c.output_name := by
  obtain ⟨r, hr, hok⟩ := optSegOK_some h.1
  exact ⟨r, hr, hok, h.2.1, h.2.2⟩

/-- Equal versioned keys resolve to equal versioned paths. -/
theorem vWritePath_eq_of_key {b : String} {c₁ c₂ : AssetStoreContext}
    (h : vKey c₁ = vKey c₂) : vWritePath b c₁ = vWritePath b c₂ := by
  unfold vKey at h
  simp only [Prod.mk.injEq] at h
  unfold vWritePath
  rw [h.1, h.2.1, h.2.2]

/-- Different segment-safe versioned keys resolve to different paths. -/
theorem vWritePath_ne_of_key {b : String} {c₁ c₂ : AssetStoreContext}
    (h₁ : VCtxOK c₁) (h₂ : VCtxOK c₂) (hne : vKey c₁ ≠ vKey c₂) :
    vWritePath b c₁ ≠ vWritePath b c₂ := by
  obtain ⟨cv₁, hcv₁, hs₁, ho₁, hv₁⟩ := vctxOK_fields h₁
  obtain ⟨cv₂, hcv₂, hs₂, ho₂, hv₂⟩ := vctxOK_fields h₂
  have e₁ : vWritePath b c₁ =
      osPathJoin b [c₁.step_key, c₁.output_name, cv₁] := by
    unfold vWritePath; rw [hcv₁]; rfl
  have e₂ : vWritePath b c₂ =
      osPathJoin b [c₂.step_key, c₂.output_name, cv₂] := by
    unfold vWritePath; rw [hcv₂]; rfl
  rw [e₁, e₂]
  apply path3_ne b hs₁ ho₁ hv₁ hs₂ ho₂ hv₂
  intro ⟨ha, hb, hc⟩
  exact hne (by unfold vKey; rw [ha, hb, hcv₁, hcv₂, hc])

/-- A segment-safe versioned path never lies on the directory chain created
by another segment-safe versioned write over the same base. -/
theorem vWritePath_not_in_chain {b : String} {c₁ c₂ : AssetStoreContext}
    (h₁ : VCtxOK c₁) (h₂ : VCtxOK c₂) :
    vWritePath b c₁ ∉ dirChain (osPathDirname (vWritePath b c₂)) := by
  obtain ⟨cv₁, hcv₁, hs₁, ho₁, hv₁⟩ := vctxOK_fields h₁
  obtain ⟨cv₂, hcv₂, hs₂, ho₂, hv₂⟩ := vctxOK_fields h₂
  have e₁ : vWritePath b c₁ =
      osPathJoin b [c₁.step_key, c₁.output_name, cv₁] := by
    unfold vWritePath; rw [hcv₁]; rfl
  have e₂ : vWritePath b c₂ =
      osPathJoin b [c₂.step_key, c₂.output_name, cv₂] := by
    unfold vWritePath; rw [hcv₂]; rfl
  rw [e₁, e₂]
  exact path3_not_in_chain b hs₁ ho₁ hv₁ hs₂ ho₂ hv₂

/-- Equal run-scoped keys resolve to equal run-scoped paths. -/
theorem pWritePath_eq_of_key {b : String} {c₁ c₂ : AssetStoreContext}
    (h : runKey c₁ = runKey c₂) : pWritePath b c₁ = pWritePath b c₂ := by
  unfold runKey at h
  simp only [Prod.mk.injEq] at h
  unfold pWritePath
  rw [h.1, h.2.1, h.2.2]

/-- Different segment-safe run-scoped keys resolve to different paths. -/
theorem pWritePath_ne_of_key {b : String} {c₁ c₂ : AssetStoreContext}
    (h₁ : PCtxOK c₁) (h₂ : PCtxOK c₂) (hne : runKey c₁ ≠ runKey c₂) :
    pWritePath b c₁ ≠ pWritePath b c₂ := by
  obtain ⟨r₁, hr₁, hkr₁, hs₁, ho₁⟩ := pctxOK_fields h₁
  obtain ⟨r₂, hr₂, hkr₂, hs₂, ho₂⟩ := pctxOK_fields h₂
  have e₁ : pWritePath b c₁ =
      osPathJoin b [r₁, c₁.step_key, c₁.output_name] := by
    unfold pWritePath; rw [hr₁]; rfl
  have e₂ : pWritePath b c₂ =
      osPathJoin b [r₂, c₂.step_key, c₂.output_name] := by
    unfold pWritePath; rw [hr₂]; rfl
  rw [e₁, e₂]
  apply path3_ne b hkr₁ hs₁ ho₁ hkr₂ hs₂ ho₂
  intro ⟨ha, hb, hc⟩
  exact hne (by unfold runKey; rw [hb, hc, hr₁, hr₂, ha])

/-- A segment-safe run-scoped path never lies on the directory chain created
by another segment-safe run-scoped write over the same base. -/
theorem pWritePath_not_in_chain {b : String} {c₁ c₂ : AssetStoreContext}
    (h₁ : PCtxOK c₁) (h₂ : PCtxOK c₂) :
    pWritePath b c₁ ∉ dirChain (osPathDirname (pWritePath b c₂)) := by
  obtain ⟨r₁, hr₁, hkr₁, hs₁, ho₁⟩ := pctxOK_fields h₁
  obtain ⟨r₂, hr₂, hkr₂, hs₂, ho₂⟩ := pctxOK_fields h₂
  have e₁ : pWritePath b c₁ =
      osPathJoin b [r₁, c₁.step_key, c₁.output_name] := by
    unfold pWritePath; rw [hr₁]; rfl
  have e₂ : pWritePath b c₂ =
      osPathJoin b [r₂, c₂.step_key, c₂.output_name] := by
    unfold pWritePath; rw [hr₂]; rfl
  rw [e₁, e₂]
  exact path3_not_in_chain b hkr₁ hs₁ ho₁ hkr₂ hs₂ ho₂

/-- Extracting the raw write from a successful versioned `set_asset`. -/
theorem vfsSet_ok_write {α : Type} {b : String} {c : AssetStoreContext}
    {cv : String} {fs fs₁ : FS α} {v : α}
    {m : Option AssetMaterialization} (hcv : c.version = some cv)
    (h : VersionedPickledObjectFilesystemAssetStore.set_asset
      ⟨some b⟩ fs c v = .ok (fs₁, m)) :
    fsWriteFile fs (vWritePath b c) v = .ok fs₁ := by
  rw [vfsSet_eq hcv] at h
  cases hw : fsWriteFile fs (vWritePath b c) v with
  | error e => rw [hw] at h; cases h
  | ok f =>
    rw [hw] at h
    have := Except.ok.inj h
    rw [(Prod.mk.injEq _ _ _ _).mp this |>.1]

/-- Extracting the raw write from a successful run-scoped `set_asset`. -/
theorem pfsSet_ok_write {α : Type} {b r : String} {c : AssetStoreContext}
    {fs fs₁ : FS α} {v : α} {m : Option AssetMaterialization}
    (hr : c.source_run_id = some r)
    (h : PickledObjectFilesystemAssetStore.set_asset
      ⟨some b⟩ fs c v = .ok (fs₁, m)) :
    fsWriteFile fs (pWritePath b c) v = .ok fs₁ := by
  rw [pfsSet_eq hr] at h
  cases hw : fsWriteFile fs (pWritePath b c) v with
  | error e => rw [hw] at h; cases h
  | ok f =>
    rw [hw] at h
    have := Except.ok.inj h
    rw [(Prod.mk.injEq _ _ _ _).mp this |>.1]

/-- After a successful versioned history containing a write, a regular file
sits at that write's versioned path. -/
theorem vHistory_file {α : Type} (b : String) :
    ∀ (ws : List (AssetStoreContext × α)) (fs fs' : FS α),
    (∀ w ∈ ws, w.1.version ≠ none) →
    vRunWrites ⟨some b⟩ ws fs = .ok fs' →
    ∀ w₀ ∈ ws, isFileEntry (fs'.entries (vWritePath b w₀.1)) = true := by
  intro ws
  induction ws with
  | nil => intro fs fs' _ _ w₀ hmem; cases hmem
  | cons w ws ih =>
    intro fs fs' hver hrun w₀ hmem
    obtain ⟨c, v⟩ := w
    obtain ⟨fs₁, m, hset, hrest⟩ := vRunWrites_cons_ok hrun
    obtain ⟨cv, hcv⟩ : ∃ cv, c.version = some cv := by
      cases hv : c.version with
      | none => exact absurd hv (hver (c, v) (List.mem_cons_self _ _))
      | some cv => exact ⟨cv, rfl⟩
    rcases List.mem_cons.mp hmem with rfl | hmem'
    · have hw := vfsSet_ok_write hcv hset
      have hfile := (fsWriteFile_entries hw).1
      rw [vRunWrites_eq b ws fs₁
          (fun u hu => hver u (List.mem_cons_of_mem _ hu))] at hrest
      exact fsRunWrites_file_mono _ _ _ hrest _ (by rw [hfile]; rfl)
    · exact ih fs₁ fs' (fun u hu => hver u (List.mem_cons_of_mem _ hu))
        hrest w₀ hmem'

/-- After a successful run-scoped history containing a write, a regular
file sits at that write's run-scoped path. -/
theorem pHistory_file {α : Type} (b : String) :
    ∀ (ws : List (AssetStoreContext × α)) (fs fs' : FS α),
    (∀ w ∈ ws, w.1.source_run_id ≠ none) →
    pRunWrites ⟨some b⟩ ws fs = .ok fs' →
    ∀ w₀ ∈ ws, isFileEntry (fs'.entries (pWritePath b w₀.1)) = true := by
  intro ws
  induction ws with
  | nil => intro fs fs' _ _ w₀ hmem; cases hmem
  | cons w ws ih =>
    intro fs fs' hrid hrun w₀ hmem
    obtain ⟨c, v⟩ := w
    obtain ⟨fs₁, m, hset, hrest⟩ := pRunWrites_cons_ok hrun
    obtain ⟨r, hr⟩ : ∃ r, c.source_run_id = some r := by
      cases hv : c.source_run_id with
      | none => exact absurd hv (hrid (c, v) (List.mem_cons_self _ _))
      | some r => exact ⟨r, rfl⟩
    rcases List.mem_cons.mp hmem with rfl | hmem'
    · have hw := pfsSet_ok_write hr hset
      have hfile := (fsWriteFile_entries hw).1
      rw [pRunWrites_eq b ws fs₁
          (fun u hu => hrid u (List.mem_cons_of_mem _ hu))] at hrest
      exact fsRunWrites_file_mono _ _ _ hrest _ (by rw [hfile]; rfl)
    · exact ih fs₁ fs' (fun u hu => hrid u (List.mem_cons_of_mem _ hu))
        hrest w₀ hmem'

/-- A versioned history of segment-safe writes, none sharing the queried
key, leaves the queried versioned path absent. -/
theorem vHistory_none {α : Type} {b : String}
    {ws : List (AssetStoreContext × α)} {fs' : FS α}
    {ctx : AssetStoreContext} (hctx : VCtxOK ctx)
    (hws : ∀ w ∈ ws, VCtxOK w.1)
    (hkeys : ∀ w ∈ ws, vKey w.1 ≠ vKey ctx)
    (hrun : vRunWrites ⟨some b⟩ ws fsEmpty = .ok fs') :
    fs'.entries (vWritePath b ctx) = none := by
  rw [vRunWrites_eq b ws fsEmpty
      (fun w hw => by
        obtain ⟨cv, hcv, _⟩ := vctxOK_fields (hws w hw)
        rw [hcv]; intro h; cases h)] at hrun
  rw [fsRunWrites_untouched _ _ _ hrun (vWritePath b ctx) ?_]
  · rfl
  · intro pv hpv
    obtain ⟨w, hw, rfl⟩ := List.mem_map.mp hpv
    exact ⟨vWritePath_ne_of_key hctx (hws w hw)
        (fun h => hkeys w hw h.symm),
      vWritePath_not_in_chain hctx (hws w hw)⟩

/-- A run-scoped history of segment-safe writes, none sharing the queried
key, leaves the queried run-scoped path absent. -/
theorem pHistory_none {α : Type} {b : String}
    {ws : List (AssetStoreContext × α)} {fs' : FS α}
    {ctx : AssetStoreContext} (hctx : PCtxOK ctx)
    (hws : ∀ w ∈ ws, PCtxOK w.1)
    (hkeys : ∀ w ∈ ws, runKey w.1 ≠ runKey ctx)
    (hrun : pRunWrites ⟨some b⟩ ws fsEmpty = .ok fs') :
    fs'.entries (pWritePath b ctx) = none := by
  rw [pRunWrites_eq b ws fsEmpty
      (fun w hw => by
        obtain ⟨r, hr, _⟩ := pctxOK_fields (hws w hw)
        rw [hr]; intro h; cases h)] at hrun
  rw [fsRunWrites_untouched _ _ _ hrun (pWritePath b ctx) ?_]
  · rfl
  · intro pv hpv
    obtain ⟨w, hw, rfl⟩ := List.mem_map.mp hpv
    exact ⟨pWritePath_ne_of_key hctx (hws w hw)
        (fun h => hkeys w hw h.symm),
      pWritePath_not_in_chain hctx (hws w hw)⟩

/-- A versioned history of segment-safe writes leaves no regular file on
the directory chain above the queried versioned path. -/
theorem vHistory_no_file_above {α : Type} {b : String}
    {ws : List (AssetStoreContext × α)} {fs' : FS α}
    {ctx : AssetStoreContext} (hctx : VCtxOK ctx)
    (hws : ∀ w ∈ ws, VCtxOK w.1)
    (hrun : vRunWrites ⟨some b⟩ ws fsEmpty = .ok fs') :
    (dirChain (osPathDirname (vWritePath b ctx))).any
      (fun q => isFileEntry (fs'.entries q)) = false := by
  rw [vRunWrites_eq b ws fsEmpty
      (fun w hw => by
        obtain ⟨cv, hcv, _⟩ := vctxOK_fields (hws w hw)
        rw [hcv]; intro h; cases h)] at hrun
  rw [List.any_eq_false]
  intro q hq
  intro hfile
  rcases fsRunWrites_file_src _ _ _ hrun q hfile with h0 | ⟨pv, hpv, rfl⟩
  · cases h0
  · obtain ⟨w, hw, rfl⟩ := List.mem_map.mp hpv
    exact vWritePath_not_in_chain (hws w hw) hctx hq

/-- A run-scoped history of segment-safe writes leaves no regular file on
the directory chain above the queried run-scoped path. -/
theorem pHistory_no_file_above {α : Type} {b : String}
    {ws : List (AssetStoreContext × α)} {fs' : FS α}
    {ctx : AssetStoreContext} (hctx : PCtxOK ctx)
    (hws : ∀ w ∈ ws, PCtxOK w.1)
    (hrun : pRunWrites ⟨some b⟩ ws fsEmpty = .ok fs') :
    (dirChain (osPathDirname (pWritePath b ctx))).any
      (fun q => isFileEntry (fs'.entries q)) = false := by
  rw [pRunWrites_eq b ws fsEmpty
      (fun w hw => by
        obtain ⟨r, hr, _⟩ := pctxOK_fields (hws w hw)
        rw [hr]; intro h; cases h)] at hrun
  rw [List.any_eq_false]
  intro q hq
  intro hfile
  rcases fsRunWrites_file_src _ _ _ hrun q hfile with h0 | ⟨pv, hpv, rfl⟩
  · cases h0
  · obtain ⟨w, hw, rfl⟩ := List.mem_map.mp hpv
    exact pWritePath_not_in_chain (hws w hw) hctx hq

/-- An in-memory history not containing the queried identifier does not
populate it. -/
theorem memHistory_untouched {α : Type} :
    ∀ (ws : List (AssetStoreContext × α)) (st : InMemoryAssetStore α)
    (k : List (Option String)),
    (∀ w ∈ ws, w.1.get_run_scoped_output_identifier ≠ k) →
    (memRunWrites ws st).values k = st.values k := by
  intro ws
  induction ws with
  | nil => intro st k _; rfl
  | cons w ws ih =>
    intro st k hk
    obtain ⟨c, v⟩ := w
    show (memRunWrites ws (st.set_asset c v).1).values k = st.values k
    rw [ih (st.set_asset c v).1 k
        (fun u hu => hk u (List.mem_cons_of_mem _ hu))]
    show (if k = c.get_run_scoped_output_identifier then some v
      else st.values k) = st.values k
    rw [if_neg (fun h => hk (c, v) (List.mem_cons_self _ _) h.symm)]

/-- Reading back a successfully written file yields the written value. -/
theorem writeRead_ok {α : Type} {fs fs' : FS α} {p : String} {v : α}
    (h : fsWriteFile fs p v = .ok fs') : fsReadFile fs' p = .ok v := by
  unfold fsReadFile
  rw [(fsWriteFile_entries h).1]

/-- Equal segment-safe versioned paths come from equal versioned keys. -/
theorem vKey_eq_of_path {b : String} {c₁ c₂ : AssetStoreContext}
    (h₁ : VCtxOK c₁) (h₂ : VCtxOK c₂)
    (h : vWritePath b c₁ = vWritePath b c₂) : vKey c₁ = vKey c₂ := by
  by_contra hne
  exact vWritePath_ne_of_key h₁ h₂ hne h

/-- Equal segment-safe run-scoped paths come from equal run-scoped keys. -/
theorem runKey_eq_of_path {b : String} {c₁ c₂ : AssetStoreContext}
    (h₁ : PCtxOK c₁) (h₂ : PCtxOK c₂)
    (h : pWritePath b c₁ = pWritePath b c₂) : runKey c₁ = runKey c₂ := by
  by_contra hne
  exact pWritePath_ne_of_key h₁ h₂ hne h

/-- Different run-scoped key triples give different identifier lists. -/
theorem ident_ne_of_runKey {c₁ c₂ : AssetStoreContext}
    (h : runKey c₁ ≠ runKey c₂) :
    c₁.get_run_scoped_output_identifier ≠
      c₂.get_run_scoped_output_identifier := by
  intro he
  apply h
  unfold AssetStoreContext.get_run_scoped_output_identifier at he
  simp only [List.cons.injEq, Option.some.injEq, and_true] at he
  unfold runKey
  rw [he.1, he.2.1, he.2.2]

/-- C4: the run-scoped filesystem backend resolves the storage path as
`join(baseDir, sourceRunId, stepKey, outputName)`, in that fixed order; in
the concrete scenario, writing `1` under run `r1`, step `a`, output
`result` with base `/tmp/x` produces the file `/tmp/x/r1/a/result` and a
subsequent read of that context returns the written value. -/
theorem C4_run_scoped_path (b r : String) (ctx : AssetStoreContext)
    (hrid : ctx.source_run_id = some r) :
    PickledObjectFilesystemAssetStore.getPath ⟨some b⟩ ctx =
      .ok (osPathJoin b [r, ctx.step_key, ctx.output_name])
    ∧ PickledObjectFilesystemAssetStore.getPath ⟨some "/tmp/x"⟩
        ⟨"a", "result", [], "p", ⟨"s"⟩, some "r1", none⟩ =
      .ok "/tmp/x/r1/a/result"
    ∧ (PickledObjectFilesystemAssetStore.set_asset ⟨some "/tmp/x"⟩ fsEmpty
        ⟨"a", "result", [], "p", ⟨"s"⟩, some "r1", none⟩ (1 : Nat)).map
        (fun res => res.1.entries "/tmp/x/r1/a/result") =
      .ok (some (.file 1))
    ∧ (PickledObjectFilesystemAssetStore.set_asset ⟨some "/tmp/x"⟩ fsEmpty
        ⟨"a", "result", [], "p", ⟨"s"⟩, some "r1", none⟩ (1 : Nat) >>=
        fun res => PickledObjectFilesystemAssetStore.get_asset
          ⟨some "/tmp/x"⟩ res.1
          ⟨"a", "result", [], "p", ⟨"s"⟩, some "r1", none⟩) = .ok 1 := by
  refine ⟨pfsGetPath_eq hrid, by decide, by decide, by decide⟩

/-- Witness for C4 at a concrete context with a present run id. -/
theorem C4_run_scoped_path_witness :
    PickledObjectFilesystemAssetStore.getPath ⟨some "/tmp/x"⟩
        ⟨"a", "result", [], "p", ⟨"s"⟩, some "r1", none⟩ =
      .ok (osPathJoin "/tmp/x" ["r1", "a", "result"]) :=
  (C4_run_scoped_path "/tmp/x" "r1"
    ⟨"a", "result", [], "p", ⟨"s"⟩, some "r1", none⟩ rfl).1

/-- C5: the version-scoped filesystem backend resolves the storage path as
`join(baseDir, stepKey, outputName, version)`; two contexts agreeing on
`(step_key, output_name, version)` resolve to the identical path, whatever
their `source_run_id`, `pipeline_name`, `solid_def` or metadata. -/
theorem C5_version_scoped_path (b ver : String) (ctx₁ ctx₂ : AssetStoreContext)
    (hv₁ : ctx₁.version = some ver)
    (hstep : ctx₁.step_key = ctx₂.step_key)
    (hout : ctx₁.output_name = ctx₂.output_name)
    (hver : ctx₁.version = ctx₂.version) :
    VersionedPickledObjectFilesystemAssetStore.getPath ⟨some b⟩ ctx₁ =
      .ok (osPathJoin b [ctx₁.step_key, ctx₁.output_name, ver])
    ∧ VersionedPickledObjectFilesystemAssetStore.getPath ⟨some b⟩ ctx₁ =
      VersionedPickledObjectFilesystemAssetStore.getPath ⟨some b⟩ ctx₂ := by
  constructor
  · exact vfsGetPath_eq hv₁
  · rw [vfsGetPath_eq hv₁, vfsGetPath_eq (hver ▸ hv₁), hstep, hout]

/-- Witness for C5 with two contexts sharing the key triple but differing
in run id, pipeline name, solid definition and metadata. -/
theorem C5_version_scoped_path_witness :
    VersionedPickledObjectFilesystemAssetStore.getPath ⟨some "/base"⟩
        ⟨"s", "out", [], "p1", ⟨"d1"⟩, some "r1", some "v7"⟩ =
      VersionedPickledObjectFilesystemAssetStore.getPath ⟨some "/base"⟩
        ⟨"s", "out", [("k", .nonstr)], "p2", ⟨"d2"⟩, some "r2", some "v7"⟩ :=
  (C5_version_scoped_path "/base" "v7"
    ⟨"s", "out", [], "p1", ⟨"d1"⟩, some "r1", some "v7"⟩
    ⟨"s", "out", [("k", .nonstr)], "p2", ⟨"d2"⟩, some "r2", some "v7"⟩
    rfl rfl rfl rfl).2

/-- C6: the explicit-path backend's `set_asset` and `get_asset` fail with
the configuration error (dagster `CheckError`) when `asset_metadata["path"]`
is absent, and all version-scoped operations fail the same way when the
context's version is `None`. -/
theorem C6_missing_metadata (α : Type)
    (cst : CustomPathPickledObjectFilesystemAssetStore)
    (vst : VersionedPickledObjectFilesystemAssetStore)
    (cwd : String) (fs₁ fs₂ : FS α) (ctx₁ ctx₂ : AssetStoreContext)
    (v₁ v₂ : α) (hpath : dictGet ctx₁.asset_metadata "path" = none)
    (hver : ctx₂.version = none) :
    cst.set_asset cwd fs₁ ctx₁ v₁ = .error .checkError
    ∧ cst.get_asset fs₁ ctx₁ = .error .checkError
    ∧ vst.set_asset fs₂ ctx₂ v₂ = .error .checkError
    ∧ vst.get_asset fs₂ ctx₂ = .error .checkError
    ∧ vst.has_asset fs₂ ctx₂ = .error .checkError := by
  have hget : VersionedPickledObjectFilesystemAssetStore.getPath vst ctx₂ =
      .error .checkError := by
    unfold VersionedPickledObjectFilesystemAssetStore.getPath
    rw [hver]
    rfl
  refine ⟨?_, ?_, ?_, ?_, ?_⟩
  · unfold CustomPathPickledObjectFilesystemAssetStore.set_asset
    rw [hpath]
    rfl
  · unfold CustomPathPickledObjectFilesystemAssetStore.get_asset
    rw [hpath]
    rfl
  · unfold VersionedPickledObjectFilesystemAssetStore.set_asset
    rw [hget]
  · unfold VersionedPickledObjectFilesystemAssetStore.get_asset
    rw [hget]
  · unfold VersionedPickledObjectFilesystemAssetStore.has_asset
    rw [hget]

/-- Witness for C6 at concrete contexts missing the path metadata and the
version respectively. -/
theorem C6_missing_metadata_witness :
    CustomPathPickledObjectFilesystemAssetStore.set_asset ⟨some "/b"⟩ "/cwd"
      (fsEmpty : FS Nat) ⟨"s", "out", [("other", .str "x")], "p", ⟨"d"⟩,
        some "r", none⟩ 3 = .error .checkError
    ∧ VersionedPickledObjectFilesystemAssetStore.has_asset ⟨some "/b"⟩
      (fsEmpty : FS Nat) ⟨"s", "out", [], "p", ⟨"d"⟩, some "r", none⟩ =
      .error .checkError := by
  have h := C6_missing_metadata Nat ⟨some "/b"⟩ ⟨some "/b"⟩ "/cwd"
    fsEmpty fsEmpty
    ⟨"s", "out", [("other", .str "x")], "p", ⟨"d"⟩, some "r", none⟩
    ⟨"s", "out", [], "p", ⟨"d"⟩, some "r", none⟩ 3 3 (by decide) rfl
  exact ⟨h.1, h.2.2.2.2⟩

/-- Run-scoped `get_asset` with a present run id is the raw read at the
run-scoped path. -/
theorem pfsGet_eq {α : Type} {b r : String} {ctx : AssetStoreContext}
    (hr : ctx.source_run_id = some r) (fs : FS α) :
    PickledObjectFilesystemAssetStore.get_asset ⟨some b⟩ fs ctx =
      fsReadFile fs (pWritePath b ctx) := by
  unfold PickledObjectFilesystemAssetStore.get_asset
  rw [pfsGetPath_eq' hr]

/-- Versioned `get_asset` with a present version is the raw read at the
versioned path. -/
theorem vfsGet_eq {α : Type} {b cv : String} {ctx : AssetStoreContext}
    (hcv : ctx.version = some cv) (fs : FS α) :
    VersionedPickledObjectFilesystemAssetStore.get_asset ⟨some b⟩ fs ctx =
      fsReadFile fs (vWritePath b ctx) := by
  unfold VersionedPickledObjectFilesystemAssetStore.get_asset
  rw [vfsGetPath_eq' hcv]

/-- Versioned `has_asset` with a present version tests for a regular file
at the versioned path. -/
theorem vfsHas_eq {α : Type} {b cv : String} {ctx : AssetStoreContext}
    (hcv : ctx.version = some cv) (fs : FS α) :
    VersionedPickledObjectFilesystemAssetStore.has_asset ⟨some b⟩ fs ctx =
      .ok (isFileEntry (fs.entries (vWritePath b ctx))) := by
  unfold VersionedPickledObjectFilesystemAssetStore.has_asset
  rw [vfsGetPath_eq' hcv]

/-- Explicit-path `set_asset` with present path metadata is the raw write
at the joined path, returning the materialization event. -/
theorem cpsSet_eq {α : Type} (b cwd mp : String) {ctx : AssetStoreContext}
    (hmp : dictGet ctx.asset_metadata "path" = some (.str mp)) (fs : FS α)
    (v : α) :
    CustomPathPickledObjectFilesystemAssetStore.set_asset ⟨some b⟩ cwd fs
        ctx v =
      (match fsWriteFile fs (osPathJoin b [mp]) v with
       | .error e => .error e
       | .ok fs' => .ok (fs',
          some ⟨[ctx.pipeline_name, ctx.step_key, ctx.output_name],
                [osPathAbspath cwd (osPathJoin b [mp])]⟩)) := by
  unfold CustomPathPickledObjectFilesystemAssetStore.set_asset
  rw [hmp]
  rfl

/-- Explicit-path `get_asset` with present path metadata is the raw read
at the joined path. -/
theorem cpsGet_eq {α : Type} (b mp : String) {ctx : AssetStoreContext}
    (hmp : dictGet ctx.asset_metadata "path" = some (.str mp)) (fs : FS α) :
    CustomPathPickledObjectFilesystemAssetStore.get_asset ⟨some b⟩ fs ctx =
      fsReadFile fs (osPathJoin b [mp]) := by
  unfold CustomPathPickledObjectFilesystemAssetStore.get_asset
  rw [hmp]
  rfl

/-- C2: on every backend, writing a value and reading back with an equal
context returns the value: unconditionally for the in-memory backend, and
whenever the write succeeds for the three filesystem backends. -/
theorem C2_round_trip (α : Type) (v : α) (ctx : AssetStoreContext)
    (mem : InMemoryAssetStore α)
    (pst : PickledObjectFilesystemAssetStore)
    (cst : CustomPathPickledObjectFilesystemAssetStore)
    (vst : VersionedPickledObjectFilesystemAssetStore)
    (cwd : String) (fs₁ fs₂ fs₃ : FS α) :
    (mem.set_asset ctx v).1.get_asset ctx = .ok v
    ∧ (exOk (pst.set_asset fs₁ ctx v) = true →
        (pst.set_asset fs₁ ctx v >>= fun res =>
          pst.get_asset res.1 ctx) = .ok v)
    ∧ (exOk (cst.set_asset cwd fs₂ ctx v) = true →
        (cst.set_asset cwd fs₂ ctx v >>= fun res =>
          cst.get_asset res.1 ctx) = .ok v)
    ∧ (exOk (vst.set_asset fs₃ ctx v) = true →
        (vst.set_asset fs₃ ctx v >>= fun res =>
          vst.get_asset res.1 ctx) = .ok v) := by
  refine ⟨?_, ?_, ?_, ?_⟩
  · unfold InMemoryAssetStore.set_asset InMemoryAssetStore.get_asset
    simp
  · intro hok
    obtain ⟨bd⟩ := pst
    cases bd with
    | none => exact Bool.noConfusion hok
    | some b =>
      cases hrid : ctx.source_run_id with
      | none =>
        exfalso
        unfold PickledObjectFilesystemAssetStore.set_asset
          PickledObjectFilesystemAssetStore.getPath at hok
        rw [hrid] at hok
        exact Bool.noConfusion hok
      | some r =>
        rw [pfsSet_eq hrid] at hok ⊢
        cases hw : fsWriteFile fs₁ (pWritePath b ctx) v with
        | error e => rw [hw] at hok; exact Bool.noConfusion hok
        | ok f =>
          show PickledObjectFilesystemAssetStore.get_asset ⟨some b⟩ f ctx =
            .ok v
          rw [pfsGet_eq hrid]
          exact writeRead_ok hw
  · intro hok
    cases hmp : dictGet ctx.asset_metadata "path" with
    | none =>
      exfalso
      unfold CustomPathPickledObjectFilesystemAssetStore.set_asset at hok
      rw [hmp] at hok
      exact Bool.noConfusion hok
    | some pv =>
      cases pv with
      | nonstr =>
        exfalso
        unfold CustomPathPickledObjectFilesystemAssetStore.set_asset at hok
        rw [hmp] at hok
        exact Bool.noConfusion hok
      | str mp =>
        obtain ⟨bd⟩ := cst
        cases bd with
        | none =>
          exfalso
          unfold CustomPathPickledObjectFilesystemAssetStore.set_asset
            CustomPathPickledObjectFilesystemAssetStore.getPath at hok
          rw [hmp] at hok
          exact Bool.noConfusion hok
        | some b =>
          rw [cpsSet_eq b cwd mp hmp] at hok ⊢
          cases hw : fsWriteFile fs₂ (osPathJoin b [mp]) v with
          | error e => rw [hw] at hok; exact Bool.noConfusion hok
          | ok f =>
            show CustomPathPickledObjectFilesystemAssetStore.get_asset
              ⟨some b⟩ f ctx = .ok v
            rw [cpsGet_eq b mp hmp]
            exact writeRead_ok hw
  · intro hok
    obtain ⟨bd⟩ := vst
    cases hcv : ctx.version with
    | none =>
      exfalso
      unfold VersionedPickledObjectFilesystemAssetStore.set_asset
        VersionedPickledObjectFilesystemAssetStore.getPath at hok
      rw [hcv] at hok
      exact Bool.noConfusion hok
    | some cv =>
      cases bd with
      | none =>
        exfalso
        unfold VersionedPickledObjectFilesystemAssetStore.set_asset
          VersionedPickledObjectFilesystemAssetStore.getPath at hok
        rw [hcv] at hok
        exact Bool.noConfusion hok
      | some b =>
        rw [vfsSet_eq hcv] at hok ⊢
        cases hw : fsWriteFile fs₃ (vWritePath b ctx) v with
        | error e => rw [hw] at hok; exact Bool.noConfusion hok
        | ok f =>
          show VersionedPickledObjectFilesystemAssetStore.get_asset
            ⟨some b⟩ f ctx = .ok v
          rw [vfsGet_eq hcv]
          exact writeRead_ok hw

/-- Witness for C2 at a concrete context valid for all four backends. -/
theorem C2_round_trip_witness :
    (InMemoryAssetStore.set_asset memEmpty
      ⟨"a", "result", [("path", .str "out/f.bin")], "p", ⟨"s"⟩,
        some "r1", some "v1"⟩ (7 : Nat)).1.get_asset
      ⟨"a", "result", [("path", .str "out/f.bin")], "p", ⟨"s"⟩,
        some "r1", some "v1"⟩ = .ok 7
    ∧ (PickledObjectFilesystemAssetStore.set_asset ⟨some "."⟩
        (fsEmpty : FS Nat)
        ⟨"a", "result", [("path", .str "out/f.bin")], "p", ⟨"s"⟩,
          some "r1", some "v1"⟩ 7 >>= fun res =>
        PickledObjectFilesystemAssetStore.get_asset ⟨some "."⟩ res.1
        ⟨"a", "result", [("path", .str "out/f.bin")], "p", ⟨"s"⟩,
          some "r1", some "v1"⟩) = .ok 7
    ∧ (CustomPathPickledObjectFilesystemAssetStore.set_asset ⟨some "."⟩
        "/cwd" (fsEmpty : FS Nat)
        ⟨"a", "result", [("path", .str "out/f.bin")], "p", ⟨"s"⟩,
          some "r1", some "v1"⟩ 7 >>= fun res =>
        CustomPathPickledObjectFilesystemAssetStore.get_asset ⟨some "."⟩
          res.1
        ⟨"a", "result", [("path", .str "out/f.bin")], "p", ⟨"s"⟩,
          some "r1", some "v1"⟩) = .ok 7
    ∧ (VersionedPickledObjectFilesystemAssetStore.set_asset ⟨some "."⟩
        (fsEmpty : FS Nat)
        ⟨"a", "result", [("path", .str "out/f.bin")], "p", ⟨"s"⟩,
          some "r1", some "v1"⟩ 7 >>= fun res =>
        VersionedPickledObjectFilesystemAssetStore.get_asset ⟨some "."⟩
          res.1
        ⟨"a", "result", [("path", .str "out/f.bin")], "p", ⟨"s"⟩,
          some "r1", some "v1"⟩) = .ok 7 := by
  have h := C2_round_trip Nat 7
    ⟨"a", "result", [("path", .str "out/f.bin")], "p", ⟨"s"⟩,
      some "r1", some "v1"⟩
    memEmpty ⟨some "."⟩ ⟨some "."⟩ ⟨some "."⟩ "/cwd" fsEmpty fsEmpty fsEmpty
  exact ⟨h.1, h.2.1 (by decide), h.2.2.1 (by decide), h.2.2.2 (by decide)⟩

/-- C9: only the explicit-path backend's `set_asset` returns a
materialization record, whose path entry is the absolute resolution of
`join(baseDir, asset_metadata["path"])`; the run-scoped, version-scoped
and in-memory backends return no record. -/
theorem C9_materialization (α : Type) (v w : α) (b cwd mp : String)
    (ctx ctx₂ ctx₃ ctx₄ : AssetStoreContext)
    (pst : PickledObjectFilesystemAssetStore)
    (vst : VersionedPickledObjectFilesystemAssetStore)
    (mem : InMemoryAssetStore α) (fs fs₂ fs₃ : FS α)
    (hmp : dictGet ctx.asset_metadata "path" = some (.str mp)) :
    (∀ res, CustomPathPickledObjectFilesystemAssetStore.set_asset ⟨some b⟩
        cwd fs ctx v = .ok res →
      res.2 = some ⟨[ctx.pipeline_name, ctx.step_key, ctx.output_name],
        [osPathAbspath cwd (osPathJoin b [mp])]⟩)
    ∧ (∀ res, pst.set_asset fs₂ ctx₂ v = .ok res → res.2 = none)
    ∧ (∀ res, vst.set_asset fs₃ ctx₃ v = .ok res → res.2 = none)
    ∧ (mem.set_asset ctx₄ w).2 = none := by
  refine ⟨?_, ?_, ?_, rfl⟩
  · intro res h
    rw [cpsSet_eq b cwd mp hmp] at h
    split at h
    · cases h
    · rw [← Except.ok.inj h]
  · intro res h
    unfold PickledObjectFilesystemAssetStore.set_asset at h
    split at h
    · cases h
    · split at h
      · cases h
      · rw [← Except.ok.inj h]
  · intro res h
    unfold VersionedPickledObjectFilesystemAssetStore.set_asset at h
    split at h
    · cases h
    · split at h
      · cases h
      · rw [← Except.ok.inj h]

/-- Witness for C9 at a concrete explicit-path write. -/
theorem C9_materialization_witness :
    (CustomPathPickledObjectFilesystemAssetStore.set_asset ⟨some "/base"⟩
      "/cwd" (fsEmpty : FS Nat)
      ⟨"s", "out", [("path", .str "reports/out.bin")], "p", ⟨"d"⟩,
        some "r", none⟩ 5).map (fun res => res.2) =
    .ok (some ⟨["p", "s", "out"],
      [osPathAbspath "/cwd" (osPathJoin "/base" ["reports/out.bin"])]⟩) := by
  have h := (C9_materialization Nat 5 5 "/base" "/cwd" "reports/out.bin"
    ⟨"s", "out", [("path", .str "reports/out.bin")], "p", ⟨"d"⟩,
      some "r", none⟩
    ⟨"s", "out", [], "p", ⟨"d"⟩, some "r", none⟩
    ⟨"s", "out", [], "p", ⟨"d"⟩, some "r", none⟩
    ⟨"s", "out", [], "p", ⟨"d"⟩, some "r", none⟩
    ⟨some "/b"⟩ ⟨some "/b"⟩ memEmpty fsEmpty fsEmpty fsEmpty
    (by decide)).1
  cases hset : CustomPathPickledObjectFilesystemAssetStore.set_asset
      ⟨some "/base"⟩ "/cwd" (fsEmpty : FS Nat)
      ⟨"s", "out", [("path", .str "reports/out.bin")], "p", ⟨"d"⟩,
        some "r", none⟩ 5 with
  | error e =>
    have hok : exOk (CustomPathPickledObjectFilesystemAssetStore.set_asset
        ⟨some "/base"⟩ "/cwd" (fsEmpty : FS Nat)
        ⟨"s", "out", [("path", .str "reports/out.bin")], "p", ⟨"d"⟩,
          some "r", none⟩ 5) = true := by decide
    rw [hset] at hok
    exact Bool.noConfusion hok
  | ok res =>
    show Except.ok res.2 = _
    rw [h res hset]

/-- C10: for the in-memory and run-scoped filesystem backends the storage
key depends only on `(source_run_id, step_key, output_name)`: contexts
agreeing on those three fields share the identifier and the resolved path,
and a value written under one is returned by a read under the other. -/
theorem C10_run_scoped_key_only (α : Type) (v : α)
    (mem : InMemoryAssetStore α) (b : String) (fs : FS α)
    (ctx₁ ctx₂ : AssetStoreContext)
    (hrid : ctx₁.source_run_id = ctx₂.source_run_id)
    (hstep : ctx₁.step_key = ctx₂.step_key)
    (hout : ctx₁.output_name = ctx₂.output_name) :
    ctx₁.get_run_scoped_output_identifier =
      ctx₂.get_run_scoped_output_identifier
    ∧ (mem.set_asset ctx₁ v).1.get_asset ctx₂ = .ok v
    ∧ PickledObjectFilesystemAssetStore.getPath ⟨some b⟩ ctx₁ =
      PickledObjectFilesystemAssetStore.getPath ⟨some b⟩ ctx₂
    ∧ (exOk (PickledObjectFilesystemAssetStore.set_asset ⟨some b⟩ fs ctx₁ v)
        = true →
      (PickledObjectFilesystemAssetStore.set_asset ⟨some b⟩ fs ctx₁ v >>=
        fun res => PickledObjectFilesystemAssetStore.get_asset ⟨some b⟩
          res.1 ctx₂) = .ok v) := by
  have hident : ctx₁.get_run_scoped_output_identifier =
      ctx₂.get_run_scoped_output_identifier := by
    unfold AssetStoreContext.get_run_scoped_output_identifier
    rw [hrid, hstep, hout]
  have hpath : PickledObjectFilesystemAssetStore.getPath ⟨some b⟩ ctx₁ =
      PickledObjectFilesystemAssetStore.getPath ⟨some b⟩ ctx₂ := by
    unfold PickledObjectFilesystemAssetStore.getPath
    rw [hrid, hstep, hout]
  refine ⟨hident, ?_, hpath, ?_⟩
  · unfold InMemoryAssetStore.get_asset
    have hval : (mem.set_asset ctx₁ v).1.values
        ctx₂.get_run_scoped_output_identifier = some v := by
      show (if ctx₂.get_run_scoped_output_identifier =
          ctx₁.get_run_scoped_output_identifier then some v
        else mem.values ctx₂.get_run_scoped_output_identifier) = some v
      rw [if_pos hident.symm]
    rw [hval]
  · intro hok
    cases hrid₁ : ctx₁.source_run_id with
    | none =>
      exfalso
      unfold PickledObjectFilesystemAssetStore.set_asset
        PickledObjectFilesystemAssetStore.getPath at hok
      rw [hrid₁] at hok
      exact Bool.noConfusion hok
    | some r =>
      rw [pfsSet_eq hrid₁] at hok ⊢
      cases hw : fsWriteFile fs (pWritePath b ctx₁) v with
      | error e => rw [hw] at hok; exact Bool.noConfusion hok
      | ok f =>
        show PickledObjectFilesystemAssetStore.get_asset ⟨some b⟩ f ctx₂ =
          .ok v
        have hrid₂ : ctx₂.source_run_id = some r := by rw [← hrid]; exact hrid₁
        rw [pfsGet_eq hrid₂]
        have hpw : pWritePath b ctx₂ = pWritePath b ctx₁ := by
          unfold pWritePath
          rw [← hrid, ← hstep, ← hout]
        rw [hpw]
        exact writeRead_ok hw

/-- Witness for C10 with contexts differing in version, pipeline, solid
definition and metadata only. -/
theorem C10_run_scoped_key_only_witness :
    ((memEmpty : InMemoryAssetStore Nat).set_asset
      ⟨"s", "out", [], "p1", ⟨"d1"⟩, some "r", some "v1"⟩ 9).1.get_asset
      ⟨"s", "out", [("k", .str "x")], "p2", ⟨"d2"⟩, some "r", some "v2"⟩ =
      .ok 9
    ∧ (PickledObjectFilesystemAssetStore.set_asset ⟨some "/b"⟩
        (fsEmpty : FS Nat)
        ⟨"s", "out", [], "p1", ⟨"d1"⟩, some "r", some "v1"⟩ 9 >>= fun res =>
        PickledObjectFilesystemAssetStore.get_asset ⟨some "/b"⟩ res.1
        ⟨"s", "out", [("k", .str "x")], "p2", ⟨"d2"⟩, some "r", some "v2"⟩) =
      .ok 9 := by
  have h := C10_run_scoped_key_only Nat 9 memEmpty "/b" fsEmpty
    ⟨"s", "out", [], "p1", ⟨"d1"⟩, some "r", some "v1"⟩
    ⟨"s", "out", [("k", .str "x")], "p2", ⟨"d2"⟩, some "r", some "v2"⟩
    rfl rfl rfl
  exact ⟨h.2.1, h.2.2.2 (by decide)⟩

/-- C8 counterexample: for the same underlying output (the load context's
`upstream_output` is exactly the producing output context), the two
construction paths yield different `AssetStoreContext` values whenever the
consuming solid differs from the producing one — `from_load_context` takes
`solid_def` from the consumer. -/
theorem C8_counterexample :
    AssetStoreContext.from_output_context
      ⟨"s1.out", "result", [], "p", ⟨"producer"⟩, some "r1", none⟩ ≠
    AssetStoreContext.from_load_context
      ⟨⟨"s1.out", "result", [], "p", ⟨"producer"⟩, some "r1", none⟩,
        ⟨"consumer"⟩⟩ := by
  decide

/-- C8 amended: the two construction paths agree on every field except
`solid_def` (the producer's on the write side, the consumer's on the read
side); in particular the run-scoped identifier and the resolved paths of
the run-scoped and version-scoped backends — the storage keys — coincide,
so a producer's write key equals the consumer's read key. -/
theorem C8_amended (lc : LoadContext) :
    AssetStoreContext.from_load_context lc =
      { AssetStoreContext.from_output_context lc.upstream_output with
        solid_def := lc.solid_def }
    ∧ (AssetStoreContext.from_load_context lc).get_run_scoped_output_identifier =
      (AssetStoreContext.from_output_context
        lc.upstream_output).get_run_scoped_output_identifier
    ∧ (∀ pst : PickledObjectFilesystemAssetStore,
        pst.getPath (AssetStoreContext.from_load_context lc) =
        pst.getPath (AssetStoreContext.from_output_context lc.upstream_output))
    ∧ (∀ vst : VersionedPickledObjectFilesystemAssetStore,
        vst.getPath (AssetStoreContext.from_load_context lc) =
        vst.getPath (AssetStoreContext.from_output_context
          lc.upstream_output)) := by
  exact ⟨rfl, rfl, fun _ => rfl, fun _ => rfl⟩

/-- C1 counterexample: the code builds paths by joining the raw key fields,
so with slash-containing fields, `has_asset` answers `true` for a
`(step_key, output_name, version)` triple that was never written: writing
under `("a", "b", "c/d")` makes `has_asset` true for `("a", "b/c", "d")`
(both resolve to `base/a/b/c/d`). -/
theorem C1_counterexample :
    (VersionedPickledObjectFilesystemAssetStore.set_asset ⟨some "base"⟩
      (fsEmpty : FS Nat)
      ⟨"a", "b", [], "p", ⟨"s"⟩, some "r", some "c/d"⟩ 0 >>= fun res =>
      VersionedPickledObjectFilesystemAssetStore.has_asset ⟨some "base"⟩
        res.1 ⟨"a", "b/c", [], "p", ⟨"s"⟩, some "r", some "d"⟩) = .ok true
    ∧ vKey ⟨"a", "b", [], "p", ⟨"s"⟩, some "r", some "c/d"⟩ ≠
      vKey ⟨"a", "b/c", [], "p", ⟨"s"⟩, some "r", some "d"⟩ :=
  ⟨by decide, by decide⟩

/-- C1 amended: restricted to contexts whose `step_key`, `output_name` and
`version` are nonempty and free of the path separator (the spec's "one path
segment per field" invariant), the version-scoped backend's `has_asset` is
true after a successful history of writes from an empty store exactly when
some prior `set_asset` used a context with the same
`(step_key, output_name, version)` triple — the artifact is then always a
regular file, and it persists across writes to other triples with no
intervening deletion. -/
theorem C1_amended (α : Type) (b : String)
    (ws : List (AssetStoreContext × α)) (ctx : AssetStoreContext)
    (hctx : VCtxOK ctx) (hws : ∀ w ∈ ws, VCtxOK w.1)
    (hok : exOk (vRunWrites ⟨some b⟩ ws fsEmpty) = true) :
    (vRunWrites ⟨some b⟩ ws fsEmpty >>= fun fs' =>
      VersionedPickledObjectFilesystemAssetStore.has_asset ⟨some b⟩ fs' ctx)
      = .ok true
    ↔ ∃ w ∈ ws, vKey w.1 = vKey ctx := by
  obtain ⟨cv, hcv, _, _, _⟩ := vctxOK_fields hctx
  cases hrun : vRunWrites ⟨some b⟩ ws fsEmpty with
  | error e => rw [hrun] at hok; exact Bool.noConfusion hok
  | ok fs' =>
    show VersionedPickledObjectFilesystemAssetStore.has_asset ⟨some b⟩
      fs' ctx = .ok true ↔ _
    rw [vfsHas_eq hcv]
    constructor
    · intro h
      have hfile : isFileEntry (fs'.entries (vWritePath b ctx)) = true :=
        Except.ok.inj h
      rw [vRunWrites_eq b ws fsEmpty
          (fun w hw => by
            obtain ⟨wv, hwv, _⟩ := vctxOK_fields (hws w hw)
            rw [hwv]
            intro hh
            cases hh)] at hrun
      rcases fsRunWrites_file_src _ _ _ hrun _ hfile with h0 | ⟨pv, hpv, hq⟩
      · cases h0
      · obtain ⟨w, hw, rfl⟩ := List.mem_map.mp hpv
        exact ⟨w, hw, (vKey_eq_of_path hctx (hws w hw) hq).symm⟩
    · intro hex
      obtain ⟨w, hw, hkey⟩ := hex
      have hfile := vHistory_file b ws fsEmpty fs'
        (fun u hu => by
          obtain ⟨uv, huv, _⟩ := vctxOK_fields (hws u hu)
          rw [huv]
          intro hh
          cases hh)
        hrun w hw
      rw [vWritePath_eq_of_key hkey] at hfile
      rw [hfile]

/-- Witness for C1 at a one-write history and a context sharing the key
triple but differing in run identity. -/
theorem C1_amended_witness :
    (vRunWrites ⟨some "/base"⟩
      [(⟨"step", "out", [], "p", ⟨"d"⟩, some "r1", some "v7"⟩, (7 : Nat))]
      fsEmpty >>= fun fs' =>
      VersionedPickledObjectFilesystemAssetStore.has_asset ⟨some "/base"⟩
        fs' ⟨"step", "out", [], "p2", ⟨"d2"⟩, some "r2", some "v7"⟩) =
      .ok true :=
  (C1_amended Nat "/base"
    [(⟨"step", "out", [], "p", ⟨"d"⟩, some "r1", some "v7"⟩, 7)]
    ⟨"step", "out", [], "p2", ⟨"d2"⟩, some "r2", some "v7"⟩
    (by decide) (by decide) (by decide)).mpr (by decide)

/-- C3 counterexample: with slash-containing key fields, a read under a
context that was never written can even succeed — writing under
`("x", "y/z", "w")` and reading under the different context
`("x/y", "z", "w")` returns the written value instead of failing with the
not-found error. -/
theorem C3_counterexample :
    (VersionedPickledObjectFilesystemAssetStore.set_asset ⟨some "base"⟩
      (fsEmpty : FS Nat)
      ⟨"x", "y/z", [], "p", ⟨"s"⟩, some "r", some "w"⟩ 5 >>= fun res =>
      VersionedPickledObjectFilesystemAssetStore.get_asset ⟨some "base"⟩
        res.1 ⟨"x/y", "z", [], "p", ⟨"s"⟩, some "r", some "w"⟩) = .ok 5
    ∧ (⟨"x", "y/z", [], "p", ⟨"s"⟩, some "r", some "w"⟩ :
        AssetStoreContext) ≠
      ⟨"x/y", "z", [], "p", ⟨"s"⟩, some "r", some "w"⟩ :=
  ⟨by decide, by decide⟩

/-- C3 amended: restricted to backend-valid contexts with segment-safe key
fields, when no prior write used an equal key, reads fail with the
not-found error on every backend, and the version-scoped `has_asset`
answers false: the in-memory backend misses on any identifier never
written; the run-scoped and version-scoped backends miss after any
successful segment-safe history avoiding the queried key; the explicit-path
backend misses on a fresh store when the path metadata is present. -/
theorem C3_amended (α : Type) (b₁ b₂ b₃ : String)
    (mws pws vws : List (AssetStoreContext × α))
    (mctx pctx vctx cctx : AssetStoreContext) (mp : String)
    (hm : ∀ w ∈ mws, w.1.get_run_scoped_output_identifier ≠
      mctx.get_run_scoped_output_identifier)
    (hpctx : PCtxOK pctx) (hpws : ∀ w ∈ pws, PCtxOK w.1)
    (hpkeys : ∀ w ∈ pws, runKey w.1 ≠ runKey pctx)
    (hpok : exOk (pRunWrites ⟨some b₁⟩ pws fsEmpty) = true)
    (hmp : dictGet cctx.asset_metadata "path" = some (.str mp))
    (hvctx : VCtxOK vctx) (hvws : ∀ w ∈ vws, VCtxOK w.1)
    (hvkeys : ∀ w ∈ vws, vKey w.1 ≠ vKey vctx)
    (hvok : exOk (vRunWrites ⟨some b₃⟩ vws fsEmpty) = true) :
    (memRunWrites mws memEmpty).get_asset mctx = .error .notFound
    ∧ (pRunWrites ⟨some b₁⟩ pws fsEmpty >>= fun fs' =>
        PickledObjectFilesystemAssetStore.get_asset ⟨some b₁⟩ fs' pctx) =
      .error .notFound
    ∧ CustomPathPickledObjectFilesystemAssetStore.get_asset ⟨some b₂⟩
        (fsEmpty : FS α) cctx = .error .notFound
    ∧ (vRunWrites ⟨some b₃⟩ vws fsEmpty >>= fun fs' =>
        VersionedPickledObjectFilesystemAssetStore.get_asset ⟨some b₃⟩
          fs' vctx) = .error .notFound
    ∧ (vRunWrites ⟨some b₃⟩ vws fsEmpty >>= fun fs' =>
        VersionedPickledObjectFilesystemAssetStore.has_asset ⟨some b₃⟩
          fs' vctx) = .ok false := by
  obtain ⟨pr, hpr, _, _, _⟩ := pctxOK_fields hpctx
  obtain ⟨vcv, hvcv, _, _, _⟩ := vctxOK_fields hvctx
  refine ⟨?_, ?_, ?_, ?_, ?_⟩
  · unfold InMemoryAssetStore.get_asset
    rw [memHistory_untouched mws memEmpty _ hm]
    rfl
  · cases hprun : pRunWrites ⟨some b₁⟩ pws fsEmpty with
    | error e => rw [hprun] at hpok; exact Bool.noConfusion hpok
    | ok fs' =>
      show PickledObjectFilesystemAssetStore.get_asset ⟨some b₁⟩ fs' pctx =
        .error .notFound
      rw [pfsGet_eq hpr]
      unfold fsReadFile
      rw [pHistory_none hpctx hpws hpkeys hprun,
          pHistory_no_file_above hpctx hpws hprun]
      rfl
  · rw [cpsGet_eq b₂ mp hmp]
    unfold fsReadFile
    have hany : (dirChain (osPathDirname (osPathJoin b₂ [mp]))).any
        (fun q => isFileEntry ((fsEmpty : FS α).entries q)) = false := by
      rw [List.any_eq_false]
      exact fun q _ hh => Bool.noConfusion hh
    rw [hany]
    rfl
  · cases hvrun : vRunWrites ⟨some b₃⟩ vws fsEmpty with
    | error e => rw [hvrun] at hvok; exact Bool.noConfusion hvok
    | ok fs' =>
      show VersionedPickledObjectFilesystemAssetStore.get_asset ⟨some b₃⟩
        fs' vctx = .error .notFound
      rw [vfsGet_eq hvcv]
      unfold fsReadFile
      rw [vHistory_none hvctx hvws hvkeys hvrun,
          vHistory_no_file_above hvctx hvws hvrun]
      rfl
  · cases hvrun : vRunWrites ⟨some b₃⟩ vws fsEmpty with
    | error e => rw [hvrun] at hvok; exact Bool.noConfusion hvok
    | ok fs' =>
      show VersionedPickledObjectFilesystemAssetStore.has_asset ⟨some b₃⟩
        fs' vctx = .ok false
      rw [vfsHas_eq hvcv, vHistory_none hvctx hvws hvkeys hvrun]
      rfl

/-- Witness for C3 on one-write histories avoiding the queried keys. -/
theorem C3_amended_witness :
    (memRunWrites
      [(⟨"s1", "out", [], "p", ⟨"d"⟩, some "r1", none⟩, (1 : Nat))]
      memEmpty).get_asset ⟨"s2", "out", [], "p", ⟨"d"⟩, some "r1", none⟩ =
      .error .notFound
    ∧ (pRunWrites ⟨some "/b1"⟩
        [(⟨"s1", "out", [], "p", ⟨"d"⟩, some "r1", none⟩, (1 : Nat))]
        fsEmpty >>= fun fs' =>
        PickledObjectFilesystemAssetStore.get_asset ⟨some "/b1"⟩ fs'
        ⟨"s2", "out", [], "p", ⟨"d"⟩, some "r1", none⟩) = .error .notFound
    ∧ CustomPathPickledObjectFilesystemAssetStore.get_asset ⟨some "/b2"⟩
        (fsEmpty : FS Nat)
        ⟨"s", "out", [("path", .str "reports/o.bin")], "p", ⟨"d"⟩,
          some "r", none⟩ = .error .notFound
    ∧ (vRunWrites ⟨some "/b3"⟩
        [(⟨"s", "out", [], "p", ⟨"d"⟩, some "r1", some "v7"⟩, (1 : Nat))]
        fsEmpty >>= fun fs' =>
        VersionedPickledObjectFilesystemAssetStore.get_asset ⟨some "/b3"⟩
          fs' ⟨"s", "out", [], "p", ⟨"d"⟩, some "r2", some "v8"⟩) =
      .error .notFound
    ∧ (vRunWrites ⟨some "/b3"⟩
        [(⟨"s", "out", [], "p", ⟨"d"⟩, some "r1", some "v7"⟩, (1 : Nat))]
        fsEmpty >>= fun fs' =>
        VersionedPickledObjectFilesystemAssetStore.has_asset ⟨some "/b3"⟩
          fs' ⟨"s", "out", [], "p", ⟨"d"⟩, some "r2", some "v8"⟩) =
      .ok false :=
  C3_amended Nat "/b1" "/b2" "/b3"
    [(⟨"s1", "out", [], "p", ⟨"d"⟩, some "r1", none⟩, 1)]
    [(⟨"s1", "out", [], "p", ⟨"d"⟩, some "r1", none⟩, 1)]
    [(⟨"s", "out", [], "p", ⟨"d"⟩, some "r1", some "v7"⟩, 1)]
    ⟨"s2", "out", [], "p", ⟨"d"⟩, some "r1", none⟩
    ⟨"s2", "out", [], "p", ⟨"d"⟩, some "r1", none⟩
    ⟨"s", "out", [], "p", ⟨"d"⟩, some "r2", some "v8"⟩
    ⟨"s", "out", [("path", .str "reports/o.bin")], "p", ⟨"d"⟩, some "r", none⟩
    "reports/o.bin" (by decide) (by decide) (by decide) (by decide)
    (by decide) (by decide) (by decide) (by decide) (by decide) (by decide)

/-- C7 counterexample: on the run-scoped filesystem backend two contexts
that differ in both `step_key` and `output_name` can still collide, because
the raw fields are joined into the path: `("a/b", "c")` and `("a", "b/c")`
resolve to the same file, so reading the first context after writing both
returns the second write's value. -/
theorem C7_counterexample :
    (PickledObjectFilesystemAssetStore.set_asset ⟨some "base"⟩
      (fsEmpty : FS Nat)
      ⟨"a/b", "c", [], "p", ⟨"s"⟩, some "r", none⟩ 1 >>= fun r₁ =>
      PickledObjectFilesystemAssetStore.set_asset ⟨some "base"⟩ r₁.1
        ⟨"a", "b/c", [], "p", ⟨"s"⟩, some "r", none⟩ 2 >>= fun r₂ =>
      PickledObjectFilesystemAssetStore.get_asset ⟨some "base"⟩ r₂.1
        ⟨"a/b", "c", [], "p", ⟨"s"⟩, some "r", none⟩) = .ok 2
    ∧ runKey ⟨"a/b", "c", [], "p", ⟨"s"⟩, some "r", none⟩ ≠
      runKey ⟨"a", "b/c", [], "p", ⟨"s"⟩, some "r", none⟩ :=
  ⟨by decide, by decide⟩

/-- C7 amended: writes under two contexts differing in `source_run_id`,
`step_key` or `output_name` never collide — reading one returns its own
value — unconditionally for the in-memory backend (tuple keys), and for
the run-scoped filesystem backend provided the three key fields are
nonempty and free of the path separator and the two writes succeed. -/
theorem C7_amended (α : Type) (v₁ v₂ : α) (b : String)
    (mem : InMemoryAssetStore α) (fs : FS α)
    (ctx₁ ctx₂ : AssetStoreContext)
    (hne : runKey ctx₁ ≠ runKey ctx₂) :
    ((mem.set_asset ctx₁ v₁).1.set_asset ctx₂ v₂).1.get_asset ctx₁ = .ok v₁
    ∧ ((mem.set_asset ctx₁ v₁).1.set_asset ctx₂ v₂).1.get_asset ctx₂ =
      .ok v₂
    ∧ (PCtxOK ctx₁ → PCtxOK ctx₂ →
        exOk (pRunWrites ⟨some b⟩ [(ctx₁, v₁), (ctx₂, v₂)] fs) = true →
        (pRunWrites ⟨some b⟩ [(ctx₁, v₁), (ctx₂, v₂)] fs >>= fun fs' =>
          PickledObjectFilesystemAssetStore.get_asset ⟨some b⟩ fs' ctx₁) =
        .ok v₁
        ∧ (pRunWrites ⟨some b⟩ [(ctx₁, v₁), (ctx₂, v₂)] fs >>= fun fs' =>
          PickledObjectFilesystemAssetStore.get_asset ⟨some b⟩ fs' ctx₂) =
        .ok v₂) := by
  have hident := ident_ne_of_runKey hne
  refine ⟨?_, ?_, ?_⟩
  · unfold InMemoryAssetStore.get_asset
    have hval : ((mem.set_asset ctx₁ v₁).1.set_asset ctx₂ v₂).1.values
        ctx₁.get_run_scoped_output_identifier = some v₁ := by
      show (if ctx₁.get_run_scoped_output_identifier =
          ctx₂.get_run_scoped_output_identifier then some v₂
        else if ctx₁.get_run_scoped_output_identifier =
          ctx₁.get_run_scoped_output_identifier then some v₁
        else mem.values ctx₁.get_run_scoped_output_identifier) = some v₁
      rw [if_neg hident, if_pos rfl]
    rw [hval]
  · unfold InMemoryAssetStore.get_asset
    have hval : ((mem.set_asset ctx₁ v₁).1.set_asset ctx₂ v₂).1.values
        ctx₂.get_run_scoped_output_identifier = some v₂ := by
      show (if ctx₂.get_run_scoped_output_identifier =
          ctx₂.get_run_scoped_output_identifier then some v₂
        else if ctx₂.get_run_scoped_output_identifier =
          ctx₁.get_run_scoped_output_identifier then some v₁
        else mem.values ctx₂.get_run_scoped_output_identifier) = some v₂
      rw [if_pos rfl]
    rw [hval]
  · intro h₁ h₂ hok
    obtain ⟨r₁, hr₁, _, _, _⟩ := pctxOK_fields h₁
    obtain ⟨r₂, hr₂, _, _, _⟩ := pctxOK_fields h₂
    cases hrun : pRunWrites ⟨some b⟩ [(ctx₁, v₁), (ctx₂, v₂)] fs with
    | error e => rw [hrun] at hok; exact Bool.noConfusion hok
    | ok fs' =>
      obtain ⟨fsA, m₁, hset₁, hrest⟩ := pRunWrites_cons_ok hrun
      obtain ⟨fsB, m₂, hset₂, hrest₂⟩ := pRunWrites_cons_ok hrest
      have hfsB : fs' = fsB := (Except.ok.inj hrest₂).symm
      have hw₁ := pfsSet_ok_write hr₁ hset₁
      have hw₂ := pfsSet_ok_write hr₂ hset₂
      constructor
      · show PickledObjectFilesystemAssetStore.get_asset ⟨some b⟩ fs' ctx₁ =
          .ok v₁
        rw [pfsGet_eq hr₁]
        have hp₁ : fsB.entries (pWritePath b ctx₁) = some (.file v₁) := by
          rw [(fsWriteFile_entries hw₂).2.1 (pWritePath b ctx₁)
              (pWritePath_ne_of_key h₁ h₂ hne)
              (pWritePath_not_in_chain h₁ h₂)]
          exact (fsWriteFile_entries hw₁).1
        rw [hfsB]
        unfold fsReadFile
        rw [hp₁]
      · show PickledObjectFilesystemAssetStore.get_asset ⟨some b⟩ fs' ctx₂ =
          .ok v₂
        rw [pfsGet_eq hr₂]
        rw [hfsB]
        exact writeRead_ok hw₂

/-- Witness for C7: the in-memory branch exercised at slash-containing
key fields (where the filesystem backend would collide), and the
run-scoped branch at segment-safe contexts differing in run id. -/
theorem C7_amended_witness :
    (((memEmpty : InMemoryAssetStore Nat).set_asset
        ⟨"a/b", "c", [], "p", ⟨"d"⟩, some "r", none⟩ 1).1.set_asset
        ⟨"a", "b/c", [], "p", ⟨"d"⟩, some "r", none⟩ 2).1.get_asset
        ⟨"a/b", "c", [], "p", ⟨"d"⟩, some "r", none⟩ = .ok 1
    ∧ (pRunWrites ⟨some "/b"⟩
      [(⟨"s", "out", [], "p", ⟨"d"⟩, some "r1", none⟩, (1 : Nat)),
       (⟨"s", "out", [], "p", ⟨"d"⟩, some "r2", none⟩, 2)]
      fsEmpty >>= fun fs' =>
      PickledObjectFilesystemAssetStore.get_asset ⟨some "/b"⟩ fs'
        ⟨"s", "out", [], "p", ⟨"d"⟩, some "r1", none⟩) = .ok 1
    ∧ (pRunWrites ⟨some "/b"⟩
      [(⟨"s", "out", [], "p", ⟨"d"⟩, some "r1", none⟩, (1 : Nat)),
       (⟨"s", "out", [], "p", ⟨"d"⟩, some "r2", none⟩, 2)]
      fsEmpty >>= fun fs' =>
      PickledObjectFilesystemAssetStore.get_asset ⟨some "/b"⟩ fs'
        ⟨"s", "out", [], "p", ⟨"d"⟩, some "r2", none⟩) = .ok 2 := by
  have hmem := C7_amended Nat 1 2 "/b" memEmpty fsEmpty
    ⟨"a/b", "c", [], "p", ⟨"d"⟩, some "r", none⟩
    ⟨"a", "b/c", [], "p", ⟨"d"⟩, some "r", none⟩ (by decide)
  have h := C7_amended Nat 1 2 "/b" memEmpty fsEmpty
    ⟨"s", "out", [], "p", ⟨"d"⟩, some "r1", none⟩
    ⟨"s", "out", [], "p", ⟨"d"⟩, some "r2", none⟩ (by decide)
  have hp := h.2.2 (by decide) (by decide) (by decide)
  exact ⟨hmem.1, hp.1, hp.2⟩

end Dagster
